import Mathlib

/-!
Verification of the gnmi_toolkit YANG-to-action pipeline
(`src/gnmi_toolkit/actions/`): a shallow embedding of the type extractor,
AST walker config inheritance, container grouper, type mapper, action
generator and the parse action result flow, with theorems settling the
stated properties of each component.

Python strings are modelled as `List Char`, Python ints as `Int` (arbitrary
precision on both sides), Python dicts as insertion-ordered association
lists, and Python objects with optional keys as structures of `Option`
fields read through `.get`-style defaults at each use site.
-/

namespace GnmiToolkit

/-- Python strings, modelled as their character sequences. -/
abbrev PyStr := List Char

/-- The characters of a Lean string literal: used to write the Python
string literals of the source. -/
def pys (s : String) : PyStr := s.data

/-- Python `str.replace(old, new)` for a one-character `old` (left-to-right
non-overlapping replacement coincides with per-character substitution). -/
def pyReplace1 (old : Char) (new : PyStr) : PyStr → PyStr
  | [] => []
  | c :: rest => (if c == old then new else [c]) ++ pyReplace1 old new rest

/-- Python `str.split(sep)` for a one-character separator. -/
def pySplit1 (sep : Char) : PyStr → List PyStr
  | [] => [[]]
  | c :: rest =>
    if c == sep then [] :: pySplit1 sep rest
    else
      match pySplit1 sep rest with
      | [] => [[c]]
      | piece :: more => (c :: piece) :: more

/-- Python `str.split(sep)` for a two-character separator (leftmost match,
non-overlapping). -/
def pySplit2 (a b : Char) : PyStr → List PyStr
  | [] => [[]]
  | [c] => [[c]]
  | c :: c2 :: rest =>
    if c == a && c2 == b then [] :: pySplit2 a b rest
    else
      match pySplit2 a b (c2 :: rest) with
      | [] => [[c]]
      | piece :: more => (c :: piece) :: more

/-- The whitespace `str.strip()` and `int()` ignore (ASCII set; the strings
stripped in this code base are ASCII). -/
def isPySpace (c : Char) : Bool :=
  c == ' ' || c == '\t' || c == '\n' || c == '\r' || c == '\x0b' || c == '\x0c'

/-- Python `str.strip()` with no argument. -/
def pyStrip (s : PyStr) : PyStr :=
  ((s.dropWhile isPySpace).reverse.dropWhile isPySpace).reverse

/-- Python `str.strip("/")`. -/
def pyStripSlashes (s : PyStr) : PyStr :=
  ((s.dropWhile (· == '/')).reverse.dropWhile (· == '/')).reverse

/-- Python `str.rstrip("/")`. -/
def pyRstripSlashes (s : PyStr) : PyStr :=
  (s.reverse.dropWhile (· == '/')).reverse

/-- After the first digit of a Python integer literal: digits, with single
underscores allowed between digits. -/
def pyDigitTail : List Char → Bool
  | [] => true
  | '_' :: rest =>
    match rest with
    | [] => false
    | c :: rest2 => c.isDigit && pyDigitTail rest2
  | c :: rest => c.isDigit && pyDigitTail rest

/-- A Python decimal digit part: nonempty digits with single underscores
allowed between digits. -/
def pyDigitPart : List Char → Bool
  | [] => false
  | c :: rest => c.isDigit && pyDigitTail rest

/-- Numeric value of a digit part, underscores skipped. -/
def pyDigitsVal (cs : List Char) : Nat :=
  (cs.filter (fun c => c != '_')).foldl (fun a c => 10 * a + (c.toNat - 48)) 0

/-- Python `int(s)` on ASCII text: surrounding whitespace ignored, an
optional sign, then a decimal digit part; `none` models the `ValueError`
raised on anything else. -/
def pyIntOfString (s : PyStr) : Option Int :=
  match pyStrip s with
  | '+' :: rest => if pyDigitPart rest then some (pyDigitsVal rest : Int) else none
  | '-' :: rest => if pyDigitPart rest then some (-(pyDigitsVal rest : Int)) else none
  | rest => if pyDigitPart rest then some (pyDigitsVal rest : Int) else none

/-- Python `str.lower()` on the ASCII range (the strings lowered by the
source are cleaned to `[a-zA-Z0-9_]` first). -/
def pyToLower (c : Char) : Char :=
  if 65 ≤ c.toNat ∧ c.toNat ≤ 90 then Char.ofNat (c.toNat + 32) else c

/-- Python `str.lower()`. -/
def pyLower (s : PyStr) : PyStr := s.map pyToLower

/-- Python `str(i)` for an int. -/
def pyStrOfInt (i : Int) : PyStr := (toString i).data

/-- Python `sep.join(parts)`. -/
def pyJoin (sep : PyStr) (parts : List PyStr) : PyStr := List.intercalate sep parts

/-- A pyang statement node: keyword, argument and substatements; on type
statements pyang validation annotates `i_typedef` with the resolved typedef
statement (used for one level of named-type indirection). -/
inductive Stmt where
  | node (keyword : PyStr) (arg : PyStr) (substmts : List Stmt) (i_typedef : Option Stmt)

/-- The statement's keyword. -/
def Stmt.keyword : Stmt → PyStr
  | .node k _ _ _ => k

/-- The statement's argument string. -/
def Stmt.arg : Stmt → PyStr
  | .node _ a _ _ => a

/-- The statement's substatements. -/
def Stmt.substmts : Stmt → List Stmt
  | .node _ _ ss _ => ss

/-- pyang's `i_typedef` annotation. -/
def Stmt.i_typedef : Stmt → Option Stmt
  | .node _ _ _ t => t

/-- pyang `Statement.search_one(keyword)`: the first substatement with the
keyword. -/
def searchOne (s : Stmt) (kw : PyStr) : Option Stmt :=
  s.substmts.find? (fun c => c.keyword == kw)

/-- pyang `Statement.search(keyword)`: all substatements with the keyword. -/
def search (s : Stmt) (kw : PyStr) : List Stmt :=
  s.substmts.filter (fun c => c.keyword == kw)

namespace TypeExtractor

/-- The dict `_parse_range` returns: always the raw string, plus overall
numeric bounds when at least one numeric token was found. -/
structure RangeResult where
  raw : PyStr
  min? : Option Int
  max? : Option Int
deriving DecidableEq

/-- `TypeExtractor._parse_range`: replace `|` with `..`, split on `..`,
parse each token with `int(part.strip())` skipping failures, and record the
overall min and max when at least one numeric token was found. -/
def parseRange (range_str : PyStr) : RangeResult :=
  let parts := pySplit2 '.' '.' (pyReplace1 '|' (pys "..") range_str)
  let numbers := parts.filterMap (fun p => pyIntOfString (pyStrip p))
  match numbers with
  | [] => { raw := range_str, min? := none, max? := none }
  | n :: ns =>
    { raw := range_str, min? := some (ns.foldl min n), max? := some (ns.foldl max n) }

/-- The dict `extract_type_info` returns: the base type name plus the
type-specific keys it conditionally stores. -/
structure TypeInfo where
  type : PyStr
  enum : Option (List PyStr) := none
  union_types : Option (List PyStr) := none
  range : Option RangeResult := none
  length : Option RangeResult := none
  patterns : Option (List PyStr) := none
  leafref_path : Option PyStr := none
  identity_base : Option PyStr := none
  fraction_digits : Option Int := none
  bits : Option (List PyStr) := none
deriving DecidableEq

/-- The literal list written in the source's `case [ ... ]` branch for the
eight integer kinds. -/
def intKindCase : List PyStr :=
  [pys "int8", pys "int16", pys "int32", pys "int64",
   pys "uint8", pys "uint16", pys "uint32", pys "uint64"]

/-- Python structural pattern matching: `case [p1, ..., pn]` is a sequence
pattern, and a `str` scrutinee never matches a sequence pattern (PEP 634
excludes `str`/`bytes` from sequence patterns). The integer branch of
`extract_type_info` is guarded by exactly such a pattern over the string
`type_name`, so the test is false for every input. -/
def seqPatternMatchesStr (_pats : List PyStr) (_scrutinee : PyStr) : Bool := false

/-- The typedef resolution at the top of `extract_type_info`: one level of
named-type indirection through pyang's `i_typedef`, substituting the
typedef's own `type` substatement when it has one. Returns the resolved
statement and the effective type name. -/
def resolveTypedef (type_stmt : Stmt) : Stmt × PyStr :=
  match type_stmt.i_typedef with
  | some typedef =>
    match searchOne typedef (pys "type") with
    | some t => (t, t.arg)
    | none => (type_stmt, type_stmt.arg)
  | none => (type_stmt, type_stmt.arg)

/-- The `match type_name:` dispatch of `extract_type_info`, over the
resolved type statement and effective type name. The `decimal64` branch
models `int(arg)` as `pyIntOfString` (a non-numeric argument raises in the
source; no claim depends on that branch). -/
def dispatchTypeInfo (resolved : Stmt) (type_name : PyStr) : TypeInfo :=
  let base : TypeInfo := { type := type_name }
  if type_name == pys "enumeration" then
    match search resolved (pys "enum") with
    | [] => base
    | es => { base with enum := some (es.map Stmt.arg) }
  else if type_name == pys "union" then
    match search resolved (pys "type") with
    | [] => base
    | ts => { base with union_types := some (ts.map Stmt.arg) }
  else if seqPatternMatchesStr intKindCase type_name then
    match searchOne resolved (pys "range") with
    | some r => { base with range := some (parseRange r.arg) }
    | none => base
  else if type_name == pys "string" then
    let withLen : TypeInfo :=
      match searchOne resolved (pys "length") with
      | some l => { base with length := some (parseRange l.arg) }
      | none => base
    match search resolved (pys "pattern") with
    | [] => withLen
    | ps => { withLen with patterns := some (ps.map Stmt.arg) }
  else if type_name == pys "leafref" then
    match searchOne resolved (pys "path") with
    | some p => { base with leafref_path := some p.arg }
    | none => base
  else if type_name == pys "identityref" then
    match searchOne resolved (pys "base") with
    | some b => { base with identity_base := some b.arg }
    | none => base
  else if type_name == pys "decimal64" then
    match searchOne resolved (pys "fraction-digits") with
    | some f => { base with fraction_digits := pyIntOfString f.arg }
    | none => base
  else if type_name == pys "bits" then
    match search resolved (pys "bit") with
    | [] => base
    | bs => { base with bits := some (bs.map Stmt.arg) }
  else base

/-- `TypeExtractor.extract_type_info`: resolve one level of typedef
indirection, store the effective base type name, then dispatch on it. -/
def extractTypeInfo (type_stmt : Stmt) : TypeInfo :=
  dispatchTypeInfo (resolveTypedef type_stmt).1 (resolveTypedef type_stmt).2

/-- No branch of the type dispatch stores a `range` key: the only branch
that would is guarded by the string-vs-sequence pattern test, which is
false. -/
theorem dispatchTypeInfo_range_none (resolved : Stmt) (type_name : PyStr) :
    (dispatchTypeInfo resolved type_name).range = none := by
  unfold dispatchTypeInfo
  split
  · split <;> rfl
  · split
    · split <;> rfl
    · split
      · next h => exact Bool.noConfusion h
      · split
        · split <;> split <;> rfl
        · split
          · split <;> rfl
          · split
            · split <;> rfl
            · split
              · split <;> rfl
              · split
                · split <;> rfl
                · rfl

end TypeExtractor

open TypeExtractor in
/-- C1: the claim says every integer-kind leaf whose resolved type statement
carries a range string gets a parsed range constraint. In the source the
integer branch is written `case ["int8", ..., "uint64"]`, a sequence
pattern that a `str` scrutinee never matches, so the branch is dead and no
input whatsoever receives a `range` key: the type resolver never produces a
range constraint. -/
theorem c1_integer_range_never_extracted (s : Stmt) :
    (extractTypeInfo s).range = none := by
  unfold extractTypeInfo
  exact dispatchTypeInfo_range_none _ _

open TypeExtractor in
/-- C4 counterexample: on `"min..100"` the range parser returns a present
minimum equal to 100 (the overall min of the numeric tokens found), not an
absent minimum as the claim states. -/
theorem c4_counterexample_min_token_present :
    (parseRange (pys "min..100")).min? = some 100 := by decide

open TypeExtractor in
/-- C4 (amended): on `"1..10 | 100..1000"` the parser returns min 1 and
max 1000; on `"min..100"` the non-numeric token `min` is skipped as a
token, and the result carries both min = 100 and max = 100 (the overall
bounds of the single numeric token found) — the `min` field is present,
not absent. -/
theorem c4_range_parsing_examples :
    parseRange (pys "1..10 | 100..1000") =
      { raw := pys "1..10 | 100..1000", min? := some 1, max? := some 1000 } ∧
    parseRange (pys "min..100") =
      { raw := pys "min..100", min? := some 100, max? := some 100 } := by decide

namespace ASTWalker

/-- The `while parent:` loop of `ASTWalker._get_config_status`: the nearest
ancestor with a `config` substatement decides; with none the YANG default
is config=true. -/
def configLoop : List Stmt → Bool
  | [] => true
  | p :: rest =>
    match searchOne p (pys "config") with
    | some c => c.arg == pys "true"
    | none => configLoop rest

/-- `ASTWalker._get_config_status`, the `parent` back-pointer chain passed
explicitly as the list of ancestors, nearest first: the node's own `config`
substatement if present, else the ancestor loop. -/
def getConfigStatus (node : Stmt) (ancestors : List Stmt) : Bool :=
  match searchOne node (pys "config") with
  | some c => c.arg == pys "true"
  | none => configLoop ancestors

/-- The claim's reading of config inheritance: the first of
node-then-ancestors with an explicit `config` declaration decides with its
declared value; with none, the default is writable. -/
def claimedConfigStatus (node : Stmt) (ancestors : List Stmt) : Bool :=
  (((node :: ancestors).findSome?
    (fun n => (searchOne n (pys "config")).map (fun c => c.arg == pys "true"))).getD true)

end ASTWalker

open ASTWalker in
/-- C5: for every leaf node the walker's config status is the leaf's own
explicit `config` declaration if present, otherwise the declared value of
the nearest ancestor that has one, otherwise true (writable): the source
computation agrees with that reading on every node and ancestor chain. -/
theorem c5_config_inheritance (node : Stmt) (ancestors : List Stmt) :
    getConfigStatus node ancestors = claimedConfigStatus node ancestors := by
  unfold getConfigStatus claimedConfigStatus
  rw [List.findSome?_cons]
  cases searchOne node (pys "config") with
  | some c => rfl
  | none =>
    induction ancestors with
    | nil => rfl
    | cons p rest ih =>
      rw [configLoop, List.findSome?_cons]
      cases searchOne p (pys "config") with
      | some c => rfl
      | none => exact ih

namespace MD5

/-! The MD5 digest (RFC 1321), as `hashlib.md5(...).hexdigest()` computes
it: the action generator hashes the cleaned identifier, whose characters
are all in `[a-zA-Z0-9_]`, so its UTF-8 encoding is the code points
themselves. 32-bit words are `Nat` values kept below `2 ^ 32` by masking. -/

/-- `2 ^ 32 - 1`, the 32-bit mask. -/
def mask32 : Nat := 4294967295

/-- 32-bit left rotation. -/
def rotl32 (x c : Nat) : Nat := ((x <<< c) ||| (x >>> (32 - c))) &&& mask32

/-- The per-operation shift amounts. -/
def shifts : List Nat :=
  [7, 12, 17, 22, 7, 12, 17, 22, 7, 12, 17, 22, 7, 12, 17, 22,
   5, 9, 14, 20, 5, 9, 14, 20, 5, 9, 14, 20, 5, 9, 14, 20,
   4, 11, 16, 23, 4, 11, 16, 23, 4, 11, 16, 23, 4, 11, 16, 23,
   6, 10, 15, 21, 6, 10, 15, 21, 6, 10, 15, 21, 6, 10, 15, 21]

/-- The sine-derived constant table. -/
def sines : List Nat :=
  [0xd76aa478, 0xe8c7b756, 0x242070db, 0xc1bdceee,
   0xf57c0faf, 0x4787c62a, 0xa8304613, 0xfd469501,
   0x698098d8, 0x8b44f7af, 0xffff5bb1, 0x895cd7be,
   0x6b901122, 0xfd987193, 0xa679438e, 0x49b40821,
   0xf61e2562, 0xc040b340, 0x265e5a51, 0xe9b6c7aa,
   0xd62f105d, 0x02441453, 0xd8a1e681, 0xe7d3fbc8,
   0x21e1cde6, 0xc33707d6, 0xf4d50d87, 0x455a14ed,
   0xa9e3e905, 0xfcefa3f8, 0x676f02d9, 0x8d2a4c8a,
   0xfffa3942, 0x8771f681, 0x6d9d6122, 0xfde5380c,
   0xa4beea44, 0x4bdecfa9, 0xf6bb4b60, 0xbebfbc70,
   0x289b7ec6, 0xeaa127fa, 0xd4ef3085, 0x04881d05,
   0xd9d4d039, 0xe6db99e5, 0x1fa27cf8, 0xc4ac5665,
   0xf4292244, 0x432aff97, 0xab9423a7, 0xfc93a039,
   0x655b59c3, 0x8f0ccc92, 0xffeff47d, 0x85845dd1,
   0x6fa87e4f, 0xfe2ce6e0, 0xa3014314, 0x4e0811a1,
   0xf7537e82, 0xbd3af235, 0x2ad7d2bb, 0xeb86d391]

/-- A word as four little-endian bytes. -/
def toLEBytes4 (n : Nat) : List Nat :=
  (List.range 4).map (fun i => n / 2 ^ (8 * i) % 256)

/-- A 64-bit length as eight little-endian bytes. -/
def toLEBytes8 (n : Nat) : List Nat :=
  (List.range 8).map (fun i => n / 2 ^ (8 * i) % 256)

/-- MD5 padding: a `0x80` byte, zeros to 56 mod 64, then the original bit
length modulo `2 ^ 64` little-endian. -/
def padBytes (msg : List Nat) : List Nat :=
  let padLen := (56 - (msg.length + 1) % 64) % 64
  msg ++ [0x80] ++ List.replicate padLen 0 ++ toLEBytes8 (8 * msg.length % 2 ^ 64)

/-- Split the padded message into 64-byte chunks. -/
def chunks64 (l : List Nat) : List (List Nat) :=
  if h : l = [] then [] else l.take 64 :: chunks64 (l.drop 64)
termination_by l.length
decreasing_by
  simp only [List.length_drop]
  have : 0 < l.length := List.length_pos.mpr h
  omega

/-- The sixteen little-endian 32-bit words of a 64-byte chunk. -/
def wordsOfChunk (chunk : List Nat) : List Nat :=
  (List.range 16).map (fun j =>
    chunk.getD (4 * j) 0 + 256 * chunk.getD (4 * j + 1) 0 +
    65536 * chunk.getD (4 * j + 2) 0 + 16777216 * chunk.getD (4 * j + 3) 0)

/-- The running digest state. -/
structure State where
  a : Nat
  b : Nat
  c : Nat
  d : Nat

/-- The initial state. -/
def initState : State :=
  { a := 0x67452301, b := 0xefcdab89, c := 0x98badcfe, d := 0x10325476 }

/-- One of the 64 operations of a chunk. -/
def md5Op (M : List Nat) (st : State) (i : Nat) : State :=
  let fg : Nat × Nat :=
    if i < 16 then ((st.b &&& st.c) ||| ((st.b ^^^ mask32) &&& st.d), i)
    else if i < 32 then ((st.d &&& st.b) ||| ((st.d ^^^ mask32) &&& st.c), (5 * i + 1) % 16)
    else if i < 48 then (st.b ^^^ st.c ^^^ st.d, (3 * i + 5) % 16)
    else (st.c ^^^ (st.b ||| (st.d ^^^ mask32)), (7 * i) % 16)
  let f := (fg.1 + st.a + sines.getD i 0 + M.getD fg.2 0) &&& mask32
  { a := st.d, b := (st.b + rotl32 f (shifts.getD i 0)) &&& mask32, c := st.b, d := st.c }

/-- Process one 64-byte chunk. -/
def processChunk (st : State) (chunk : List Nat) : State :=
  let M := wordsOfChunk chunk
  let r := (List.range 64).foldl (md5Op M) st
  { a := (st.a + r.a) &&& mask32, b := (st.b + r.b) &&& mask32,
    c := (st.c + r.c) &&& mask32, d := (st.d + r.d) &&& mask32 }

/-- The sixteen digest bytes of a byte message. -/
def md5Bytes (msg : List Nat) : List Nat :=
  let fin := (chunks64 (padBytes msg)).foldl processChunk initState
  toLEBytes4 fin.a ++ toLEBytes4 fin.b ++ toLEBytes4 fin.c ++ toLEBytes4 fin.d

/-- A hex digit character, lowercase as `hexdigest` renders it. -/
def toHexDigit (n : Nat) : Char :=
  if n < 10 then Char.ofNat (48 + n) else Char.ofNat (87 + n)

/-- The two hex characters of one byte. -/
def byteToHexChars (b : Nat) : List Char :=
  [toHexDigit (b / 16 % 16), toHexDigit (b % 16)]

/-- `hashlib.md5(s.encode()).hexdigest()` for an ASCII string (the cleaned
identifiers hashed by the source): UTF-8 of ASCII is the code points. -/
def md5Hex (s : PyStr) : PyStr :=
  (md5Bytes (s.map Char.toNat)).flatMap byteToHexChars

end MD5

/-- A leaf metadata dict as the walker stores it and the grouper and mapper
read it: every key optional, read through `.get` defaults at each use
site. -/
structure PathMeta where
  config : Option Bool := none
  readonly : Option Bool := none
  description : Option PyStr := none
  mandatory : Option Bool := none
  default : Option PyStr := none
  units : Option PyStr := none
  type : Option PyStr := none
  enum : Option (List PyStr) := none
  union_types : Option (List PyStr) := none
  range : Option TypeExtractor.RangeResult := none
  length : Option TypeExtractor.RangeResult := none
  patterns : Option (List PyStr) := none
  leafref_path : Option PyStr := none
  identity_base : Option PyStr := none
  fraction_digits : Option Int := none
  bits : Option (List PyStr) := none
  is_list : Option Bool := none
  is_list_key : Option Bool := none
  list_path : Option PyStr := none
deriving DecidableEq

namespace TypeMapper

/-- `TypeMapper.MONGODB_INT_MAX`. -/
def MONGODB_INT_MAX : Int := 9223372036854775807

/-- `TypeMapper.MONGODB_INT_MIN`. -/
def MONGODB_INT_MIN : Int := -9223372036854775808

/-- `TypeMapper.YANG_TO_ST2_TYPE_MAP`. -/
def YANG_TO_ST2_TYPE_MAP : List (PyStr × PyStr) :=
  [(pys "int8", pys "integer"), (pys "int16", pys "integer"),
   (pys "int32", pys "integer"), (pys "int64", pys "integer"),
   (pys "uint8", pys "integer"), (pys "uint16", pys "integer"),
   (pys "uint32", pys "integer"), (pys "uint64", pys "integer"),
   (pys "string", pys "string"), (pys "binary", pys "string"),
   (pys "boolean", pys "boolean"), (pys "decimal64", pys "number"),
   (pys "enumeration", pys "string"), (pys "union", pys "string"),
   (pys "leafref", pys "string"), (pys "identityref", pys "string"),
   (pys "empty", pys "boolean"), (pys "bits", pys "array")]

/-- Association lookup with a default: Python `dict.get(key, default)`. -/
def lookupD (m : List (PyStr × PyStr)) (k : PyStr) (d : PyStr) : PyStr :=
  match m.find? (fun e => e.1 == k) with
  | some e => e.2
  | none => d

/-- A converted default value: Python `int`, `float`, `bool` or `str`. The
numeric value of a `float` literal is not modelled (no claim depends on
it); the raw string is carried. -/
inductive ConvertedDefault where
  | intVal (n : Int)
  | floatVal (raw : PyStr)
  | boolVal (b : Bool)
  | strVal (s : PyStr)
deriving DecidableEq

/-- `TypeMapper._convert_default_value`. The `number` branch keeps the raw
string (see `ConvertedDefault.floatVal`); its parse-failure fallback is not
modelled since no claim reaches it. -/
def convertDefaultValue (default_str : PyStr) (st2_type : PyStr) : ConvertedDefault :=
  if st2_type == pys "integer" then
    match pyIntOfString default_str with
    | some n => .intVal n
    | none => .strVal default_str
  else if st2_type == pys "number" then .floatVal default_str
  else if st2_type == pys "boolean" then
    .boolVal ((pyLower default_str == pys "true") || (pyLower default_str == pys "1")
      || (pyLower default_str == pys "yes"))
  else .strVal default_str

/-- An ST2 parameter specification as `map_yang_to_st2_parameter` builds
it. -/
structure ParamSpec where
  type : PyStr
  required : Bool
  description : Option PyStr := none
  default : Option ConvertedDefault := none
  enum : Option (List PyStr) := none
  minimum : Option Int := none
  maximum : Option Int := none
  pattern : Option PyStr := none
deriving DecidableEq

/-- The repeated source pattern
`param_spec["description"] = param_spec.get("description", "") + clause`. -/
def appendDesc (sp : ParamSpec) (clause : PyStr) : ParamSpec :=
  { sp with description := some ((sp.description.getD []) ++ clause) }

/-- The length clause appended to the description:
`" (length: {min or 0}-{max or unlimited})"`. -/
def lengthClause (li : TypeExtractor.RangeResult) : PyStr :=
  pys " (length: "
    ++ (match li.min? with | some v => pyStrOfInt v | none => pys "0")
    ++ pys "-"
    ++ (match li.max? with | some v => pyStrOfInt v | none => pys "unlimited")
    ++ pys ")"

/-- Source block `if "description" in path_metadata:` — quote-escape,
newline-flatten, truncate past 200 characters. -/
def stepDescription (m : PathMeta) (sp : ParamSpec) : ParamSpec :=
  match m.description with
  | some d0 =>
    let d1 := pyReplace1 '\n' (pys " ") (pyReplace1 '\x22' (pys "\\\x22") d0)
    let d2 := if 200 < d1.length then d1.take 197 ++ pys "..." else d1
    { sp with description := some d2 }
  | none => sp

/-- Source block `if path_metadata.get("mandatory", False):`. -/
def stepMandatory (m : PathMeta) (sp : ParamSpec) : ParamSpec :=
  if m.mandatory.getD false then { sp with required := true } else sp

/-- Source block `if "default" in path_metadata:`. -/
def stepDefault (m : PathMeta) (st2_type : PyStr) (sp : ParamSpec) : ParamSpec :=
  match m.default with
  | some dv => { sp with default := some (convertDefaultValue dv st2_type) }
  | none => sp

/-- Source block `if "enum" in path_metadata and path_metadata["enum"]:`. -/
def stepEnum (m : PathMeta) (sp : ParamSpec) : ParamSpec :=
  match m.enum with
  | some es => if es.isEmpty then sp else { sp with enum := some es }
  | none => sp

/-- Source block `if "range" in path_metadata:` — cap the bounds at the
MongoDB limits and store them. -/
def stepRange (m : PathMeta) (sp : ParamSpec) : ParamSpec :=
  match m.range with
  | some r =>
    let sA :=
      match r.min? with
      | some v => { sp with minimum := some (max v MONGODB_INT_MIN) }
      | none => sp
    (match r.max? with
     | some v => { sA with maximum := some (min v MONGODB_INT_MAX) }
     | none => sA)
  | none => sp

/-- Source block `if "length" in path_metadata:` — the length constraint is
demoted to a description clause. -/
def stepLength (m : PathMeta) (sp : ParamSpec) : ParamSpec :=
  match m.length with
  | some li =>
    if li.min?.isSome || li.max?.isSome then appendDesc sp (lengthClause li)
    else sp
  | none => sp

/-- Source block `if "patterns" in path_metadata and ...:` — first pattern
only. -/
def stepPatterns (m : PathMeta) (sp : ParamSpec) : ParamSpec :=
  match m.patterns with
  | some ps => if ps.isEmpty then sp else { sp with pattern := some (ps.headD []) }
  | none => sp

/-- Source block `if "union_types" in path_metadata:`. -/
def stepUnion (m : PathMeta) (sp : ParamSpec) : ParamSpec :=
  match m.union_types with
  | some uts => appendDesc sp (pys " (union: " ++ pyJoin (pys ", ") uts ++ pys ")")
  | none => sp

/-- Source block `if "leafref_path" in path_metadata:`. -/
def stepLeafref (m : PathMeta) (sp : ParamSpec) : ParamSpec :=
  match m.leafref_path with
  | some lp => appendDesc sp (pys " (ref: " ++ lp ++ pys ")")
  | none => sp

/-- Source block `if "identity_base" in path_metadata:`. -/
def stepIdentity (m : PathMeta) (sp : ParamSpec) : ParamSpec :=
  match m.identity_base with
  | some ib => appendDesc sp (pys " (identity: " ++ ib ++ pys ")")
  | none => sp

/-- `yang_type = path_metadata.get("type", "string")` lowered through the
fixed table with fallback `"string"`. -/
def st2TypeOf (m : PathMeta) : PyStr :=
  lookupD YANG_TO_ST2_TYPE_MAP (m.type.getD (pys "string")) (pys "string")

/-- `TypeMapper.map_yang_to_st2_parameter`: base type from the fixed table,
then the source's constraint blocks in order. -/
def mapYangToSt2Parameter (m : PathMeta) : ParamSpec :=
  stepIdentity m (stepLeafref m (stepUnion m (stepPatterns m (stepLength m
    (stepRange m (stepEnum m (stepDefault m (st2TypeOf m)
      (stepMandatory m (stepDescription m { type := st2TypeOf m, required := false })))))))))

theorem appendDesc_minimum (sp : ParamSpec) (c : PyStr) :
    (appendDesc sp c).minimum = sp.minimum := rfl

theorem appendDesc_maximum (sp : ParamSpec) (c : PyStr) :
    (appendDesc sp c).maximum = sp.maximum := rfl

theorem stepDescription_bounds (m : PathMeta) (sp : ParamSpec) :
    (stepDescription m sp).minimum = sp.minimum ∧
    (stepDescription m sp).maximum = sp.maximum := by
  unfold stepDescription
  repeat' split
  all_goals exact ⟨rfl, rfl⟩

theorem stepMandatory_bounds (m : PathMeta) (sp : ParamSpec) :
    (stepMandatory m sp).minimum = sp.minimum ∧
    (stepMandatory m sp).maximum = sp.maximum := by
  unfold stepMandatory
  repeat' split
  all_goals exact ⟨rfl, rfl⟩

theorem stepDefault_bounds (m : PathMeta) (st2 : PyStr) (sp : ParamSpec) :
    (stepDefault m st2 sp).minimum = sp.minimum ∧
    (stepDefault m st2 sp).maximum = sp.maximum := by
  unfold stepDefault
  repeat' split
  all_goals exact ⟨rfl, rfl⟩

theorem stepEnum_bounds (m : PathMeta) (sp : ParamSpec) :
    (stepEnum m sp).minimum = sp.minimum ∧ (stepEnum m sp).maximum = sp.maximum := by
  unfold stepEnum
  repeat' split
  all_goals exact ⟨rfl, rfl⟩

theorem stepLength_bounds (m : PathMeta) (sp : ParamSpec) :
    (stepLength m sp).minimum = sp.minimum ∧
    (stepLength m sp).maximum = sp.maximum := by
  unfold stepLength
  repeat' split
  all_goals exact ⟨rfl, rfl⟩

theorem stepPatterns_bounds (m : PathMeta) (sp : ParamSpec) :
    (stepPatterns m sp).minimum = sp.minimum ∧
    (stepPatterns m sp).maximum = sp.maximum := by
  unfold stepPatterns
  repeat' split
  all_goals exact ⟨rfl, rfl⟩

theorem stepUnion_bounds (m : PathMeta) (sp : ParamSpec) :
    (stepUnion m sp).minimum = sp.minimum ∧ (stepUnion m sp).maximum = sp.maximum := by
  unfold stepUnion
  repeat' split
  all_goals exact ⟨rfl, rfl⟩

theorem stepLeafref_bounds (m : PathMeta) (sp : ParamSpec) :
    (stepLeafref m sp).minimum = sp.minimum ∧
    (stepLeafref m sp).maximum = sp.maximum := by
  unfold stepLeafref
  repeat' split
  all_goals exact ⟨rfl, rfl⟩

theorem stepIdentity_bounds (m : PathMeta) (sp : ParamSpec) :
    (stepIdentity m sp).minimum = sp.minimum ∧
    (stepIdentity m sp).maximum = sp.maximum := by
  unfold stepIdentity
  repeat' split
  all_goals exact ⟨rfl, rfl⟩

theorem stepRange_minimum (m : PathMeta) (sp : ParamSpec) :
    (stepRange m sp).minimum =
      (match m.range with
       | some r =>
         match r.min? with
         | some v => some (max v MONGODB_INT_MIN)
         | none => sp.minimum
       | none => sp.minimum) := by
  unfold stepRange
  repeat' split
  all_goals rfl

theorem stepRange_maximum (m : PathMeta) (sp : ParamSpec) :
    (stepRange m sp).maximum =
      (match m.range with
       | some r =>
         match r.max? with
         | some v => some (min v MONGODB_INT_MAX)
         | none => sp.maximum
       | none => sp.maximum) := by
  unfold stepRange
  repeat' split
  all_goals rfl

/-- The mapped minimum, in closed form: the declared minimum capped from
below at the MongoDB lower bound, absent when no declared minimum. -/
theorem mapYang_minimum (m : PathMeta) :
    (mapYangToSt2Parameter m).minimum =
      (match m.range with
       | some r => r.min?.map (fun v => max v MONGODB_INT_MIN)
       | none => none) := by
  unfold mapYangToSt2Parameter
  rw [(stepIdentity_bounds _ _).1, (stepLeafref_bounds _ _).1, (stepUnion_bounds _ _).1,
    (stepPatterns_bounds _ _).1, (stepLength_bounds _ _).1, stepRange_minimum,
    (stepEnum_bounds _ _).1, (stepDefault_bounds _ _ _).1, (stepMandatory_bounds _ _).1,
    (stepDescription_bounds _ _).1]
  cases m.range with
  | none => rfl
  | some r => cases hm : r.min? <;> simp [hm]

/-- The mapped maximum, in closed form: the declared maximum capped from
above at the MongoDB upper bound, absent when no declared maximum. -/
theorem mapYang_maximum (m : PathMeta) :
    (mapYangToSt2Parameter m).maximum =
      (match m.range with
       | some r => r.max?.map (fun v => min v MONGODB_INT_MAX)
       | none => none) := by
  unfold mapYangToSt2Parameter
  rw [(stepIdentity_bounds _ _).2, (stepLeafref_bounds _ _).2, (stepUnion_bounds _ _).2,
    (stepPatterns_bounds _ _).2, (stepLength_bounds _ _).2, stepRange_maximum,
    (stepEnum_bounds _ _).2, (stepDefault_bounds _ _ _).2, (stepMandatory_bounds _ _).2,
    (stepDescription_bounds _ _).2]
  cases m.range with
  | none => rfl
  | some r => cases hm : r.max? <;> simp [hm]

end TypeMapper

/-- A leaf metadata with a declared range minimum of `2 ^ 70`: the capping
is one-sided, so the emitted minimum escapes the signed 64-bit domain. -/
def c6CexMeta : PathMeta :=
  { type := some (pys "uint64"),
    range := some { raw := pys "big", min? := some 1180591620717411303424, max? := none } }

open TypeMapper in
/-- C6 counterexample: the claim says every emitted minimum/maximum lies
within the signed 64-bit domain; on a declared minimum of `2 ^ 70` the
mapper emits `minimum = max(2 ^ 70, MONGODB_INT_MIN) = 2 ^ 70`, which is
above `MONGODB_INT_MAX` — the cap on each bound is one-sided. -/
theorem c6_counterexample_minimum_escapes_domain :
    (mapYangToSt2Parameter c6CexMeta).minimum = some 1180591620717411303424 ∧
    MONGODB_INT_MAX < 1180591620717411303424 := by
  constructor
  · rw [mapYang_minimum]; decide
  · decide

open TypeMapper in
/-- C6 (amended): for every leaf metadata carrying a range constraint the
mapper emits `minimum = max(declared min, -9223372036854775808)` when a
minimum is declared and `maximum = min(declared max, 9223372036854775807)`
when a maximum is declared (each bound absent otherwise); consequently
every emitted minimum is at least `MONGODB_INT_MIN` and every emitted
maximum is at most `MONGODB_INT_MAX` — in particular a declared upper
bound of `2 ^ 70` yields `maximum = 9223372036854775807`. The original
claim's stronger statement, that both emitted bounds always lie inside the
signed 64-bit domain, fails: each cap is one-sided (see the
counterexample). -/
theorem c6_numeric_clamping (m : PathMeta) (r : TypeExtractor.RangeResult)
    (h : m.range = some r) :
    (mapYangToSt2Parameter m).minimum = r.min?.map (fun v => max v MONGODB_INT_MIN) ∧
    (mapYangToSt2Parameter m).maximum = r.max?.map (fun v => min v MONGODB_INT_MAX) ∧
    (∀ v, (mapYangToSt2Parameter m).minimum = some v → MONGODB_INT_MIN ≤ v) ∧
    (∀ v, (mapYangToSt2Parameter m).maximum = some v → v ≤ MONGODB_INT_MAX) := by
  have hmin : (mapYangToSt2Parameter m).minimum =
      r.min?.map (fun v => max v MONGODB_INT_MIN) := by
    rw [mapYang_minimum, h]
  have hmax : (mapYangToSt2Parameter m).maximum =
      r.max?.map (fun v => min v MONGODB_INT_MAX) := by
    rw [mapYang_maximum, h]
  refine ⟨hmin, hmax, ?_, ?_⟩
  · intro v hv
    rw [hmin] at hv
    cases hw : r.min? with
    | none => rw [hw] at hv; exact absurd hv (by simp)
    | some w =>
      rw [hw] at hv
      simp only [Option.map_some'] at hv
      rw [← Option.some_inj.mp hv]
      exact le_max_right w MONGODB_INT_MIN
  · intro v hv
    rw [hmax] at hv
    cases hw : r.max? with
    | none => rw [hw] at hv; exact absurd hv (by simp)
    | some w =>
      rw [hw] at hv
      simp only [Option.map_some'] at hv
      rw [← Option.some_inj.mp hv]
      exact min_le_right w MONGODB_INT_MAX

/-- The range of the C6 witness: a declared minimum of `-(2 ^ 70)` and a
declared maximum of `2 ^ 70`. -/
def c6WitRange : TypeExtractor.RangeResult :=
  { raw := pys "wide", min? := some (-1180591620717411303424),
    max? := some 1180591620717411303424 }

/-- The C6 witness metadata. -/
def c6WitMeta : PathMeta :=
  { type := some (pys "uint64"), range := some c6WitRange }

open TypeMapper in
/-- C6 witness: at a concrete leaf with declared bounds `±(2 ^ 70)` the
mapper clamps to exactly the MongoDB limits. -/
theorem c6_numeric_clamping_witness :
    (mapYangToSt2Parameter c6WitMeta).minimum = some MONGODB_INT_MIN ∧
    (mapYangToSt2Parameter c6WitMeta).maximum = some MONGODB_INT_MAX := by
  have h := c6_numeric_clamping c6WitMeta c6WitRange rfl
  refine ⟨?_, ?_⟩
  · rw [h.1]; decide
  · rw [h.2.1]; decide

/-- A list-key descriptor as `ASTWalker._extract_list_metadata` builds it;
the grouper's `_get_list_info` adds `list_path` to a copy, and the
generator's `_rename_duplicate_list_keys` adds `original_name` to a
renamed copy. Absent keys are `none` (the generator reads `list_path`
through `.get("list_path", "")`). -/
structure ListKey where
  name : PyStr
  yang_name : PyStr
  type : PyStr
  type_info : TypeExtractor.TypeInfo
  list_path : Option PyStr := none
  original_name : Option PyStr := none
deriving DecidableEq

/-- A list registry entry: `{"list_path": ..., "keys": [...]}`. -/
structure ListMeta where
  list_path : PyStr
  keys : List ListKey
deriving DecidableEq

namespace ContainerGrouper

/-- The `list_info` dict: `{"is_list": False}` or the full record with the
innermost list path, the concatenated tagged keys and all matching list
paths outer to inner. -/
inductive ListInfo where
  | notList
  | isList (list_path : PyStr) (keys : List ListKey) (all_list_paths : List PyStr)
deriving DecidableEq

/-- The `is_list` flag of a `list_info` dict. -/
def ListInfo.isListFlag : ListInfo → Bool
  | .notList => false
  | .isList _ _ _ => true

/-- Stable insertion for sorting by path length ascending (Python
`list.sort(key=...)` is stable; an element is placed before the first
strictly longer one). -/
def insertByLen (x : PyStr × ListMeta) :
    List (PyStr × ListMeta) → List (PyStr × ListMeta)
  | [] => [x]
  | y :: ys => if y.1.length ≤ x.1.length then y :: insertByLen x ys else x :: y :: ys

/-- `matching_lists.sort(key=lambda x: x["length"])`. -/
def sortByLen (l : List (PyStr × ListMeta)) : List (PyStr × ListMeta) :=
  l.foldr insertByLen []

/-- `ContainerGrouper._get_list_info`: every registered list whose path
followed by `/` is a prefix of the container path matches; with none the
container is not under a list, otherwise sort matches by length, tag each
key with its owning list path, concatenate outer to inner, and take the
longest match as the primary list path. -/
def getListInfo (module_lists : List (PyStr × ListMeta)) (container_path : PyStr) :
    ListInfo :=
  let matching := module_lists.filter (fun e => (e.1 ++ pys "/").isPrefixOf container_path)
  match matching with
  | [] => .notList
  | m0 :: ms =>
    let sorted := sortByLen matching
    let all_keys := sorted.flatMap
      (fun e => e.2.keys.map (fun k => { k with list_path := some e.1 }))
    let innermost := sorted.getLastD m0
    .isList innermost.1 all_keys (sorted.map (fun e => e.1))

/-- `ContainerGrouper._get_container_path`: strip surrounding slashes,
split on `/`, require at least two parts, and rejoin all but the last with
a leading slash. -/
def getContainerPath (full_path : PyStr) : Option PyStr :=
  let parts := pySplit1 '/' (pyStripSlashes full_path)
  if parts.length < 2 then none
  else some ('/' :: pyJoin (pys "/") parts.dropLast)

/-- `ContainerGrouper._detect_container_type`: the `/config` and `/state`
suffix conventions first, then the writability fallback. -/
def detectContainerType (container_path : PyStr) (is_writable : Bool) : PyStr :=
  if (pys "/config").isSuffixOf container_path then pys "config"
  else if (pys "/state").isSuffixOf container_path then pys "state"
  else if is_writable then pys "config" else pys "state"

/-- `ContainerGrouper._get_supported_operations`. -/
def getSupportedOperations (is_writable : Bool) : List PyStr :=
  if is_writable then [pys "get", pys "update", pys "replace", pys "delete"]
  else [pys "get"]

/-- One value of the `module_containers` dict. -/
structure ContainerData where
  paths : List (PyStr × PathMeta)
  param_count : Nat
  is_writable : Bool
  container_type : PyStr
  supported_operations : List PyStr
  list_info : ListInfo
deriving DecidableEq

/-- Python dict assignment `d[k] = v`: update in place when the key is
present, append otherwise. -/
def dictInsert (k : PyStr) (v : PathMeta) (d : List (PyStr × PathMeta)) :
    List (PyStr × PathMeta) :=
  if d.any (fun e => e.1 == k) then d.map (fun e => if e.1 == k then (k, v) else e)
  else d ++ [(k, v)]

/-- The container group created on the first path seen for a container:
writability and type detected from that path's metadata. -/
def initContainer (module_lists : List (PyStr × ListMeta)) (cp : PyStr)
    (metadata : PathMeta) : ContainerData :=
  let is_writable := metadata.config.getD true && !(metadata.readonly.getD false)
  { paths := [], param_count := 0, is_writable := is_writable,
    container_type := detectContainerType cp is_writable,
    supported_operations := getSupportedOperations is_writable,
    list_info := getListInfo module_lists cp }

/-- Add an ordinary path to its (existing) container entry. -/
def addPath (acc : List (PyStr × ContainerData)) (cp path : PyStr)
    (metadata : PathMeta) : List (PyStr × ContainerData) :=
  acc.map (fun e =>
    if e.1 == cp then
      (e.1, { e.2 with paths := dictInsert path metadata e.2.paths,
                       param_count := e.2.param_count + 1 })
    else e)

/-- One iteration of the `for path, metadata in paths.items():` loop:
skip paths without a container, create the group on first sight, and add
the path unless it is a list key. -/
def stepGroup (module_lists : List (PyStr × ListMeta))
    (acc : List (PyStr × ContainerData)) (pm : PyStr × PathMeta) :
    List (PyStr × ContainerData) :=
  match getContainerPath pm.1 with
  | none => acc
  | some cp =>
    let acc1 :=
      if acc.any (fun e => e.1 == cp) then acc
      else acc ++ [(cp, initContainer module_lists cp pm.2)]
    if pm.2.is_list_key.getD false then acc1 else addPath acc1 cp pm.1 pm.2

/-- The `module_containers` dict after the path loop. -/
def buildContainers (module_lists : List (PyStr × ListMeta))
    (paths : List (PyStr × PathMeta)) : List (PyStr × ContainerData) :=
  paths.foldl (stepGroup module_lists) []

/-- The `filtered_containers` comprehension: keep groups with enough
parameters or an `is_list` marker. -/
def groupModulePaths (module_lists : List (PyStr × ListMeta))
    (paths : List (PyStr × PathMeta)) (min_params : Int) :
    List (PyStr × ContainerData) :=
  (buildContainers module_lists paths).filter
    (fun e => decide (min_params ≤ (e.2.param_count : Int)) || e.2.list_info.isListFlag)

/-- Python `registry.get(module_name, {})`. -/
def registryLists (registry : List (PyStr × List (PyStr × ListMeta))) (mn : PyStr) :
    List (PyStr × ListMeta) :=
  match registry.find? (fun e => e.1 == mn) with
  | some e => e.2
  | none => []

/-- `ContainerGrouper.group_by_container`: per module, skip empty path
dicts, filter the built groups, and keep the module only when some group
survives. -/
def groupByContainer (yang_schema : List (PyStr × List (PyStr × PathMeta)))
    (registry : List (PyStr × List (PyStr × ListMeta))) (min_params : Int) :
    List (PyStr × List (PyStr × ContainerData)) :=
  yang_schema.foldl
    (fun grouped e =>
      if e.2.isEmpty then grouped
      else
        let filtered := groupModulePaths (registryLists registry e.1) e.2 min_params
        if filtered.isEmpty then grouped else grouped ++ [(e.1, filtered)])
    []

/-- The ordinary (non-list-key) paths of a container, in catalog order:
what `member_paths` accumulates and `param_count` counts. -/
def ordinaryOf (cp : PyStr) (ps : List (PyStr × PathMeta)) : List (PyStr × PathMeta) :=
  ps.filter (fun pm => getContainerPath pm.1 == some cp && !(pm.2.is_list_key.getD false))

/-- The container paths of an accumulator. -/
def keysOf (acc : List (PyStr × ContainerData)) : List PyStr := acc.map Prod.fst

/-- The loop invariant of `group_by_container`'s path loop: container keys
are unique, a container key is present exactly when some processed path
maps to it, and every entry's `list_info`, `param_count` and (for a
duplicate-free catalog) `paths` are determined by the processed prefix. -/
def GroupInv (L : List (PyStr × ListMeta)) (ps : List (PyStr × PathMeta))
    (acc : List (PyStr × ContainerData)) : Prop :=
  (keysOf acc).Nodup ∧
  (∀ cp : PyStr, cp ∈ keysOf acc ↔ ∃ pm ∈ ps, getContainerPath pm.1 = some cp) ∧
  (∀ cp d, (cp, d) ∈ acc →
    d.list_info = getListInfo L cp ∧
    d.param_count = (ordinaryOf cp ps).length ∧
    ((ps.map Prod.fst).Nodup → d.paths = ordinaryOf cp ps))

theorem keysOf_addPath (acc : List (PyStr × ContainerData)) (cp p : PyStr)
    (m : PathMeta) : keysOf (addPath acc cp p m) = keysOf acc := by
  unfold keysOf addPath
  rw [List.map_map]
  apply List.map_congr_left
  intro e _
  show (if e.1 == cp then _ else e).1 = e.1
  split <;> rfl

theorem ordinaryOf_append_one (cp : PyStr) (ps : List (PyStr × PathMeta))
    (pm : PyStr × PathMeta) :
    ordinaryOf cp (ps ++ [pm]) =
      ordinaryOf cp ps ++
        (if getContainerPath pm.1 == some cp && !(pm.2.is_list_key.getD false)
         then [pm] else []) := by
  unfold ordinaryOf
  rw [List.filter_append]
  congr 1
  by_cases h : getContainerPath pm.1 == some cp && !(pm.2.is_list_key.getD false) <;>
    simp [h]

theorem ordinaryOf_nil_of_no_path (cp : PyStr) (ps : List (PyStr × PathMeta))
    (h : ¬ ∃ pm ∈ ps, getContainerPath pm.1 = some cp) : ordinaryOf cp ps = [] := by
  unfold ordinaryOf
  rw [List.filter_eq_nil_iff]
  intro pm hpm
  by_cases hc : getContainerPath pm.1 == some cp
  · exact absurd ⟨pm, hpm, by exact beq_iff_eq.mp hc⟩ h
  · simp [hc]

theorem dictInsert_append (k : PyStr) (v : PathMeta) (d : List (PyStr × PathMeta))
    (h : ¬ k ∈ d.map Prod.fst) : dictInsert k v d = d ++ [(k, v)] := by
  unfold dictInsert
  rw [if_neg]
  intro hany
  rcases List.any_eq_true.mp hany with ⟨e, he, hk⟩
  exact h (List.mem_map.mpr ⟨e, he, beq_iff_eq.mp hk⟩)

/-- The entry update `addPath` applies to the matching container. -/
def bumpEntry (p : PyStr) (m : PathMeta) (d : ContainerData) : ContainerData :=
  { d with paths := dictInsert p m d.paths, param_count := d.param_count + 1 }

theorem any_keys_iff (acc : List (PyStr × ContainerData)) (cp : PyStr) :
    (acc.any (fun e => e.1 == cp) = true) ↔ cp ∈ keysOf acc := by
  rw [List.any_eq_true]
  unfold keysOf
  rw [List.mem_map]
  constructor
  · rintro ⟨e, he, hb⟩
    exact ⟨e, he, beq_iff_eq.mp hb⟩
  · rintro ⟨e, he, hb⟩
    exact ⟨e, he, beq_iff_eq.mpr hb⟩

theorem addPath_eq_map (acc : List (PyStr × ContainerData)) (cp0 p : PyStr)
    (m : PathMeta) :
    addPath acc cp0 p m =
      acc.map (fun e => (e.1, if e.1 = cp0 then bumpEntry p m e.2 else e.2)) := by
  unfold addPath bumpEntry
  apply List.map_congr_left
  intro e _
  by_cases hc : e.1 = cp0
  · rw [if_pos (beq_iff_eq.mpr hc), if_pos hc, hc]
  · rw [if_neg (by simpa using hc), if_neg hc]

theorem mem_addPath (acc : List (PyStr × ContainerData)) (cp0 p : PyStr)
    (m : PathMeta) (cp : PyStr) (d : ContainerData) :
    ((cp, d) ∈ addPath acc cp0 p m) ↔
      ∃ d0, (cp, d0) ∈ acc ∧ d = (if cp = cp0 then bumpEntry p m d0 else d0) := by
  rw [addPath_eq_map, List.mem_map]
  constructor
  · rintro ⟨⟨e1, e2⟩, he, hEq⟩
    obtain ⟨h1, h2⟩ := Prod.mk.injEq .. ▸ hEq
    subst h1
    exact ⟨e2, he, h2.symm⟩
  · rintro ⟨d0, hd0, rfl⟩
    exact ⟨(cp, d0), hd0, rfl⟩

theorem keysOf_append_one (acc : List (PyStr × ContainerData)) (cp0 : PyStr)
    (x : ContainerData) : keysOf (acc ++ [(cp0, x)]) = keysOf acc ++ [cp0] := by
  unfold keysOf
  rw [List.map_append]
  rfl

theorem stepGroup_inv (L : List (PyStr × ListMeta)) (ps : List (PyStr × PathMeta))
    (acc : List (PyStr × ContainerData)) (pm : PyStr × PathMeta)
    (h : GroupInv L ps acc) : GroupInv L (ps ++ [pm]) (stepGroup L acc pm) := by
  obtain ⟨hnd, hmem, hdata⟩ := h
  have hpfx : ((ps ++ [pm]).map Prod.fst).Nodup → (ps.map Prod.fst).Nodup := by
    intro hh
    rw [List.map_append] at hh
    exact hh.of_append_left
  unfold stepGroup
  cases hK : getContainerPath pm.1 with
  | none =>
    have hord : ∀ cp, ordinaryOf cp (ps ++ [pm]) = ordinaryOf cp ps := by
      intro cp
      rw [ordinaryOf_append_one, hK]
      simp
    refine ⟨hnd, ?_, ?_⟩
    · intro cp
      rw [hmem cp]
      constructor
      · rintro ⟨pm', h1, h2⟩
        exact ⟨pm', List.mem_append_left _ h1, h2⟩
      · rintro ⟨pm', h1, h2⟩
        rcases List.mem_append.mp h1 with h1 | h1
        · exact ⟨pm', h1, h2⟩
        · rw [List.mem_singleton.mp h1] at h2
          rw [hK] at h2
          exact absurd h2 (by simp)
    · intro cp d hd
      obtain ⟨h1, h2, h3⟩ := hdata cp d hd
      exact ⟨h1, by rw [hord]; exact h2, fun hnodup => by rw [hord]; exact h3 (hpfx hnodup)⟩
  | some cp0 =>
    dsimp only
    have hmem' : ∀ cp : PyStr,
        (∃ pm' ∈ ps ++ [pm], getContainerPath pm'.1 = some cp) ↔
          ((∃ pm' ∈ ps, getContainerPath pm'.1 = some cp) ∨ cp = cp0) := by
      intro cp
      constructor
      · rintro ⟨pm', h1, h2⟩
        rcases List.mem_append.mp h1 with h1 | h1
        · exact Or.inl ⟨pm', h1, h2⟩
        · rw [List.mem_singleton.mp h1] at h2
          rw [hK] at h2
          exact Or.inr (Option.some_inj.mp h2).symm
      · rintro (⟨pm', h1, h2⟩ | rfl)
        · exact ⟨pm', List.mem_append_left _ h1, h2⟩
        · exact ⟨pm, List.mem_append_right _ (List.mem_singleton_self pm), hK⟩
    have hordNe : ∀ cp, cp ≠ cp0 → ordinaryOf cp (ps ++ [pm]) = ordinaryOf cp ps := by
      intro cp hne
      rw [ordinaryOf_append_one, hK]
      have hfalse : ((some cp0 : Option PyStr) == some cp) = false := by
        simp only [beq_eq_false_iff_ne]
        intro hcc
        exact hne (Option.some_inj.mp hcc).symm
      rw [hfalse]
      simp
    by_cases hkey : pm.2.is_list_key.getD false
    · rw [if_pos hkey]
      have hordKey : ∀ cp, ordinaryOf cp (ps ++ [pm]) = ordinaryOf cp ps := by
        intro cp
        rw [ordinaryOf_append_one, hkey]
        simp
      by_cases hex : acc.any (fun e => e.1 == cp0)
      · rw [if_pos hex]
        refine ⟨hnd, ?_, ?_⟩
        · intro cp
          rw [hmem cp, hmem' cp]
          constructor
          · exact Or.inl
          · rintro (hc | rfl)
            · exact hc
            · exact (hmem cp).mp ((any_keys_iff acc cp).mp hex)
        · intro cp d hd
          obtain ⟨h1, h2, h3⟩ := hdata cp d hd
          exact ⟨h1, by rw [hordKey]; exact h2,
            fun hnodup => by rw [hordKey]; exact h3 (hpfx hnodup)⟩
      · rw [if_neg hex]
        have hfresh : ¬ cp0 ∈ keysOf acc := fun hc => hex ((any_keys_iff acc cp0).mpr hc)
        refine ⟨?_, ?_, ?_⟩
        · rw [keysOf_append_one]
          refine List.Nodup.append hnd (List.nodup_singleton cp0) ?_
          intro a ha hb
          rw [List.mem_singleton.mp hb] at ha
          exact hfresh ha
        · intro cp
          rw [keysOf_append_one, List.mem_append, List.mem_singleton, hmem cp, hmem' cp]
        · intro cp d hd
          rcases List.mem_append.mp hd with hd | hd
          · obtain ⟨h1, h2, h3⟩ := hdata cp d hd
            exact ⟨h1, by rw [hordKey]; exact h2,
              fun hnodup => by rw [hordKey]; exact h3 (hpfx hnodup)⟩
          · have hped := List.mem_singleton.mp hd
            rw [Prod.mk.injEq] at hped
            obtain ⟨h1, h2⟩ := hped
            subst h1
            have hnone : ordinaryOf cp ps = [] :=
              ordinaryOf_nil_of_no_path cp ps (fun hc => hfresh ((hmem cp).mpr hc))
            rw [h2]
            refine ⟨rfl, ?_, fun _ => ?_⟩
            · rw [hordKey, hnone]
              rfl
            · rw [hordKey, hnone]
              rfl
    · rw [if_neg hkey]
      have hkeyF : pm.2.is_list_key.getD false = false := by
        exact Bool.not_eq_true _ ▸ hkey
      have hordSelf : ordinaryOf cp0 (ps ++ [pm]) = ordinaryOf cp0 ps ++ [pm] := by
        rw [ordinaryOf_append_one, hK, hkeyF]
        simp
      by_cases hex : acc.any (fun e => e.1 == cp0)
      · rw [if_pos hex]
        refine ⟨?_, ?_, ?_⟩
        · rw [keysOf_addPath]
          exact hnd
        · intro cp
          rw [keysOf_addPath, hmem cp, hmem' cp]
          constructor
          · exact Or.inl
          · rintro (hc | rfl)
            · exact hc
            · exact (hmem cp).mp ((any_keys_iff acc cp).mp hex)
        · intro cp d hd
          rcases (mem_addPath acc cp0 pm.1 pm.2 cp d).mp hd with ⟨d0, hd0, rfl⟩
          obtain ⟨h1, h2, h3⟩ := hdata cp d0 hd0
          by_cases hcc : cp = cp0
          · subst hcc
            rw [if_pos rfl]
            refine ⟨h1, ?_, ?_⟩
            · show d0.param_count + 1 = _
              rw [hordSelf, List.length_append, h2]
              rfl
            · intro hnodup
              show dictInsert pm.1 pm.2 d0.paths = _
              have hpaths := h3 (hpfx hnodup)
              have hnotin : ¬ pm.1 ∈ d0.paths.map Prod.fst := by
                intro hin
                rw [hpaths] at hin
                rcases List.mem_map.mp hin with ⟨e, he, hfst⟩
                have hsub : e ∈ ps := List.mem_of_mem_filter he
                rw [List.map_append] at hnodup
                exact (List.disjoint_of_nodup_append hnodup)
                  (List.mem_map.mpr ⟨e, hsub, hfst⟩) (by simp)
              rw [dictInsert_append pm.1 pm.2 d0.paths hnotin, hpaths, hordSelf]
          · rw [if_neg hcc]
            exact ⟨h1, by rw [hordNe cp hcc]; exact h2,
              fun hnodup => by rw [hordNe cp hcc]; exact h3 (hpfx hnodup)⟩
      · rw [if_neg hex]
        have hfresh : ¬ cp0 ∈ keysOf acc := fun hc => hex ((any_keys_iff acc cp0).mpr hc)
        refine ⟨?_, ?_, ?_⟩
        · rw [keysOf_addPath, keysOf_append_one]
          refine List.Nodup.append hnd (List.nodup_singleton cp0) ?_
          intro a ha hb
          rw [List.mem_singleton.mp hb] at ha
          exact hfresh ha
        · intro cp
          rw [keysOf_addPath, keysOf_append_one, List.mem_append, List.mem_singleton,
            hmem cp, hmem' cp]
        · intro cp d hd
          rcases (mem_addPath _ cp0 pm.1 pm.2 cp d).mp hd with ⟨d0, hd0, rfl⟩
          rcases List.mem_append.mp hd0 with hdL | hdR
          · obtain ⟨h1, h2, h3⟩ := hdata cp d0 hdL
            by_cases hcc : cp = cp0
            · subst hcc
              exact absurd
                (show cp ∈ keysOf acc from List.mem_map.mpr ⟨(cp, d0), hdL, rfl⟩) hfresh
            · rw [if_neg hcc]
              exact ⟨h1, by rw [hordNe cp hcc]; exact h2,
                fun hnodup => by rw [hordNe cp hcc]; exact h3 (hpfx hnodup)⟩
          · have hped := List.mem_singleton.mp hdR
            rw [Prod.mk.injEq] at hped
            obtain ⟨h1, h2⟩ := hped
            subst h1
            rw [if_pos rfl, h2]
            have hnone : ordinaryOf cp ps = [] :=
              ordinaryOf_nil_of_no_path cp ps (fun hc => hfresh ((hmem cp).mpr hc))
            refine ⟨rfl, ?_, fun _ => ?_⟩
            · show (0 : Nat) + 1 = _
              rw [hordSelf, hnone]
              rfl
            · show dictInsert pm.1 pm.2 [] = _
              rw [hordSelf, hnone]
              rfl

theorem foldl_inv (L : List (PyStr × ListMeta)) (rest : List (PyStr × PathMeta)) :
    ∀ (processed : List (PyStr × PathMeta)) (acc : List (PyStr × ContainerData)),
      GroupInv L processed acc →
      GroupInv L (processed ++ rest) (rest.foldl (stepGroup L) acc) := by
  induction rest with
  | nil =>
    intro processed acc h
    simpa using h
  | cons pm rest ih =>
    intro processed acc h
    rw [List.foldl_cons]
    have h2 := ih (processed ++ [pm]) _ (stepGroup_inv L processed acc pm h)
    rw [List.append_assoc, List.singleton_append] at h2
    exact h2

/-- The grouper's loop invariant holds of the finished `module_containers`
dict. -/
theorem buildContainers_inv (L : List (PyStr × ListMeta))
    (paths : List (PyStr × PathMeta)) : GroupInv L paths (buildContainers L paths) := by
  have h0 : GroupInv L [] [] := by
    refine ⟨List.nodup_nil, ?_, ?_⟩
    · intro cp
      constructor
      · intro hc
        exact absurd hc (List.not_mem_nil cp)
      · rintro ⟨pm, hpm, _⟩
        exact absurd hpm (List.not_mem_nil pm)
    · intro cp d hd
      exact absurd hd (List.not_mem_nil (cp, d))
  have h := foldl_inv L paths [] [] h0
  rw [List.nil_append] at h
  exact h

theorem mem_insertByLen (x y : PyStr × ListMeta) (l : List (PyStr × ListMeta)) :
    y ∈ insertByLen x l ↔ y = x ∨ y ∈ l := by
  induction l with
  | nil => simp [insertByLen]
  | cons z zs ih =>
    unfold insertByLen
    split
    · rw [List.mem_cons, ih, List.mem_cons]
      tauto
    · simp only [List.mem_cons]

theorem mem_sortByLen (y : PyStr × ListMeta) (l : List (PyStr × ListMeta)) :
    y ∈ sortByLen l ↔ y ∈ l := by
  induction l with
  | nil => simp [sortByLen]
  | cons z zs ih =>
    show y ∈ insertByLen z (sortByLen zs) ↔ _
    rw [mem_insertByLen, ih, List.mem_cons]

/-- Keys attached by `_get_list_info` come only from registered lists whose
path followed by `/` is a prefix of the container path: a list contributes
its keys only to containers strictly below it. -/
theorem getListInfo_keys_below (L : List (PyStr × ListMeta)) (cp lp : PyStr)
    (ks : List ListKey) (alls : List PyStr)
    (h : getListInfo L cp = .isList lp ks alls) :
    ∀ k ∈ ks, ((k.list_path.getD [] ++ pys "/").isPrefixOf cp) = true := by
  unfold getListInfo at h
  dsimp only at h
  split at h
  · exact absurd h (by simp)
  · next m0 ms hm =>
    rw [ListInfo.isList.injEq] at h
    obtain ⟨_, hks, _⟩ := h
    intro k hk
    rw [← hks] at hk
    rcases List.mem_flatMap.mp hk with ⟨e, he, hke⟩
    rcases List.mem_map.mp hke with ⟨k0, _, hk0⟩
    have hmatch : e ∈ L.filter (fun e => (e.1 ++ pys "/").isPrefixOf cp) :=
      (mem_sortByLen e _).mp he
    have hpref := List.of_mem_filter hmatch
    rw [← hk0]
    simpa using hpref

/-- When no registered list path followed by `/` is a prefix of the
container path, `_get_list_info` reports `{is_list: False}`. -/
theorem getListInfo_notList (L : List (PyStr × ListMeta)) (cp : PyStr)
    (h : ∀ e ∈ L, ((e.1 ++ pys "/").isPrefixOf cp) = false) :
    getListInfo L cp = .notList := by
  unfold getListInfo
  dsimp only
  split
  · rfl
  · next m0 ms hm =>
    exfalso
    have hmem : m0 ∈ L.filter (fun e => (e.1 ++ pys "/").isPrefixOf cp) := by
      rw [hm]
      exact List.mem_cons_self m0 ms
    have := List.of_mem_filter hmem
    rw [h m0 (List.mem_of_mem_filter hmem)] at this
    exact Bool.noConfusion this

/-- Every module entry of `group_by_container` is the filtered grouping of
one schema entry with that module's registered lists. -/
theorem mem_groupByContainer (schema : List (PyStr × List (PyStr × PathMeta)))
    (registry : List (PyStr × List (PyStr × ListMeta))) (min_params : Int)
    (mn : PyStr) (cs : List (PyStr × ContainerData))
    (h : (mn, cs) ∈ groupByContainer schema registry min_params) :
    ∃ paths, (mn, paths) ∈ schema ∧
      cs = groupModulePaths (registryLists registry mn) paths min_params := by
  have hgo : ∀ (rest : List (PyStr × List (PyStr × PathMeta)))
      (acc : List (PyStr × List (PyStr × ContainerData))),
      (mn, cs) ∈ rest.foldl
        (fun grouped e =>
          if e.2.isEmpty then grouped
          else
            let filtered := groupModulePaths (registryLists registry e.1) e.2 min_params
            if filtered.isEmpty then grouped else grouped ++ [(e.1, filtered)]) acc →
      (mn, cs) ∈ acc ∨ ∃ paths, (mn, paths) ∈ rest ∧
        cs = groupModulePaths (registryLists registry mn) paths min_params := by
    intro rest
    induction rest with
    | nil =>
      intro acc h
      exact Or.inl h
    | cons e rest ih =>
      intro acc h
      rw [List.foldl_cons] at h
      rcases ih _ h with hacc | ⟨paths, hmem2, hcs⟩
      · dsimp only at hacc
        split at hacc
        · exact Or.inl hacc
        · split at hacc
          · exact Or.inl hacc
          · rcases List.mem_append.mp hacc with hacc | hacc
            · exact Or.inl hacc
            · have hped := List.mem_singleton.mp hacc
              rw [Prod.mk.injEq] at hped
              obtain ⟨h1, h2⟩ := hped
              subst h1
              exact Or.inr ⟨e.2, List.mem_cons_self e rest, h2⟩
      · exact Or.inr ⟨paths, List.mem_cons_of_mem e hmem2, hcs⟩
  rcases hgo schema [] h with hacc | hfound
  · simp at hacc
  · exact hfound

end ContainerGrouper

open ContainerGrouper in
/-- C8: a group built by the path loop is kept by the minimum-member filter
exactly when its ordinary member count reaches `min_params` or its
`list_info.is_list` is true, and that count is precisely the number of
catalog paths grouped under the container that are not list keys. A group
with zero ordinary members under a registered list is therefore always
retained. -/
theorem c8_min_member_filter (L : List (PyStr × ListMeta))
    (paths : List (PyStr × PathMeta)) (min_params : Int) (cp : PyStr)
    (d : ContainerData) (h : (cp, d) ∈ buildContainers L paths) :
    d.param_count = (ordinaryOf cp paths).length ∧
    ((cp, d) ∈ groupModulePaths L paths min_params ↔
      (min_params ≤ (d.param_count : Int) ∨ d.list_info.isListFlag = true)) := by
  obtain ⟨-, -, hdata⟩ := buildContainers_inv L paths
  refine ⟨(hdata cp d h).2.1, ?_⟩
  unfold groupModulePaths
  rw [List.mem_filter]
  simp only [Bool.or_eq_true, decide_eq_true_eq]
  constructor
  · rintro ⟨-, hp⟩
    exact hp
  · intro hp
    exact ⟨h, hp⟩

/-- The list key of the C8 witness. -/
def c8Key : ListKey :=
  { name := pys "k1", yang_name := pys "k1", type := pys "string",
    type_info := { type := pys "string" } }

/-- The registry of the C8 witness: one list at `/a/b` keyed by `k1`. -/
def c8Lists : List (PyStr × ListMeta) :=
  [(pys "/a/b", { list_path := pys "/a/b", keys := [c8Key] })]

/-- The single catalog path of the C8 witness: a list-key leaf, so the
container `/a/b/c` has zero ordinary members. -/
def c8Paths : List (PyStr × PathMeta) :=
  [(pys "/a/b/c/k1",
    { config := some true, readonly := some false, type := some (pys "string"),
      is_list_key := some true, list_path := some (pys "/a/b/c") })]

/-- The group the C8 witness builds at `/a/b/c`. -/
def c8Data : ContainerGrouper.ContainerData :=
  { paths := [], param_count := 0, is_writable := true, container_type := pys "config",
    supported_operations := [pys "get", pys "update", pys "replace", pys "delete"],
    list_info := .isList (pys "/a/b") [{ c8Key with list_path := some (pys "/a/b") }]
      [pys "/a/b"] }

open ContainerGrouper in
/-- C8 witness: a concrete container with zero ordinary leaves but
non-empty enclosing-list key metadata survives the filter at
`min_params = 1`. -/
theorem c8_min_member_filter_witness :
    (pys "/a/b/c", c8Data) ∈ groupModulePaths c8Lists c8Paths 1 ∧
    c8Data.param_count = 0 := by
  have h := c8_min_member_filter c8Lists c8Paths 1 (pys "/a/b/c") c8Data (by decide)
  exact ⟨h.2.mpr (Or.inr (by decide)), by decide⟩

open ContainerGrouper in
/-- C3 (amended): the grouper applies no bracket-based skip. Every catalog
path that yields a container (at least two segments) and is not marked as
a list key — paths with bracketed instance selectors included — is
grouped: it lands in the member paths of its parent-container group. -/
theorem c3_no_instance_selector_skip (L : List (PyStr × ListMeta))
    (paths : List (PyStr × PathMeta)) (p cp : PyStr) (m : PathMeta)
    (hnd : (paths.map Prod.fst).Nodup)
    (hp : (p, m) ∈ paths)
    (hcp : getContainerPath p = some cp)
    (hkey : m.is_list_key.getD false = false) :
    ∃ d, (cp, d) ∈ buildContainers L paths ∧ (p, m) ∈ d.paths := by
  obtain ⟨-, hmem, hdata⟩ := buildContainers_inv L paths
  have hin : cp ∈ keysOf (buildContainers L paths) := (hmem cp).mpr ⟨(p, m), hp, hcp⟩
  rcases List.mem_map.mp hin with ⟨⟨cp', d⟩, hd, hfst⟩
  have hcc : cp' = cp := hfst
  subst hcc
  refine ⟨d, hd, ?_⟩
  have hpaths := (hdata cp' d hd).2.2 hnd
  rw [hpaths]
  refine List.mem_filter.mpr ⟨hp, ?_⟩
  rw [hcp, hkey]
  simp

/-- The C3 witness catalog: one leaf under a bracketed instance selector. -/
def c3WitPaths : List (PyStr × PathMeta) :=
  [(pys "/interfaces/interface[name=eth0]/config/mtu",
    { config := some true, readonly := some false, type := some (pys "uint16") })]

open ContainerGrouper in
/-- C3 witness: the bracketed path is grouped under its parent container,
not skipped. -/
theorem c3_no_instance_selector_skip_witness :
    ∃ d, (pys "/interfaces/interface[name=eth0]/config", d) ∈
        buildContainers [] c3WitPaths ∧
      (pys "/interfaces/interface[name=eth0]/config/mtu",
        ({ config := some true, readonly := some false,
           type := some (pys "uint16") } : PathMeta)) ∈ d.paths :=
  c3_no_instance_selector_skip [] c3WitPaths
    (pys "/interfaces/interface[name=eth0]/config/mtu")
    (pys "/interfaces/interface[name=eth0]/config")
    { config := some true, readonly := some false, type := some (pys "uint16") }
    (by decide) (by decide) (by decide) (by decide)

/-- The C3 counterexample catalog. -/
def c3CexPaths : List (PyStr × PathMeta) :=
  [(pys "/a/b[x=1]/c", { config := some true, readonly := some false })]

open ContainerGrouper in
/-- C3 counterexample: the claim says a leaf path with a bracketed
list-instance selector contributes to no container group and appears in no
group's member paths; on this one-path catalog the grouper emits a group
at `/a/b[x=1]` whose member paths contain exactly the bracketed path. -/
theorem c3_counterexample_bracketed_path_grouped :
    (groupModulePaths [] c3CexPaths 1).map (fun e => (e.1, e.2.paths.map Prod.fst)) =
      [(pys "/a/b[x=1]", [pys "/a/b[x=1]/c"])] := by decide

open ContainerGrouper in
/-- C10 (amended): a registered list contributes its keys only to container
paths strictly below it (the prefix test requires the container path to
start with the list path followed by `/`). The group whose container path
equals the list's own path gets nothing from that list itself; when
additionally no registered list at all is a strict prefix of that path,
its `list_info` is `{is_list: false}`, and if every catalog path grouped
there is a list key the group has zero ordinary members and is dropped by
the minimum-member filter (for `min_params ≥ 1`), so it generates no
action. The original claim's unconditional `{is_list: false}` fails under
nesting: an outer list that is a strict prefix still marks the group
`is_list` (see the counterexample). -/
theorem c10_list_self_group (L : List (PyStr × ListMeta)) (cp : PyStr)
    (schema : List (PyStr × List (PyStr × PathMeta)))
    (registry : List (PyStr × List (PyStr × ListMeta))) (mn : PyStr)
    (min_params : Int)
    (hmin : 1 ≤ min_params)
    (hreg : registryLists registry mn = L)
    (hnopfx : ∀ e ∈ L, ((e.1 ++ pys "/").isPrefixOf cp) = false)
    (hkeys : ∀ paths, (mn, paths) ∈ schema → ∀ pm ∈ paths,
      getContainerPath pm.1 = some cp → pm.2.is_list_key.getD false = true) :
    (∀ cp' lp ks alls, getListInfo L cp' = .isList lp ks alls →
      ∀ k ∈ ks, ((k.list_path.getD [] ++ pys "/").isPrefixOf cp') = true) ∧
    getListInfo L cp = .notList ∧
    (∀ cs, (mn, cs) ∈ groupByContainer schema registry min_params →
      ¬ cp ∈ cs.map Prod.fst) := by
  have hnot := getListInfo_notList L cp hnopfx
  refine ⟨fun cp' lp ks alls hi => getListInfo_keys_below L cp' lp ks alls hi, hnot, ?_⟩
  intro cs hcs hin
  rcases mem_groupByContainer schema registry min_params mn cs hcs with ⟨paths, hpaths, rfl⟩
  rcases List.mem_map.mp hin with ⟨⟨cp', d⟩, hd, hfst⟩
  have hcc : cp' = cp := hfst
  subst hcc
  have hd' : (cp', d) ∈ buildContainers (registryLists registry mn) paths :=
    List.mem_of_mem_filter hd
  obtain ⟨-, -, hdata⟩ := buildContainers_inv (registryLists registry mn) paths
  obtain ⟨hli, hpc, -⟩ := hdata cp' d hd'
  have hord : ordinaryOf cp' paths = [] := by
    unfold ordinaryOf
    rw [List.filter_eq_nil_iff]
    intro pm hpm
    by_cases hc : getContainerPath pm.1 = some cp'
    · have hk := hkeys paths hpaths pm hpm hc
      rw [hk]
      simp
    · have hb : (getContainerPath pm.1 == some cp') = false := beq_eq_false_iff_ne.mpr hc
      rw [hb]
      simp
  have hflag : d.list_info.isListFlag = false := by
    rw [hli, hreg, hnot]
    rfl
  have hpred := List.of_mem_filter hd
  rw [hpc, hord] at hpred
  simp only [hflag, Bool.or_false, List.length_nil, Nat.cast_zero,
    decide_eq_true_eq] at hpred
  omega

/-- The key leaves of the C10 counterexample's two nested lists. -/
def c10CexKeyA : ListKey :=
  { name := pys "ka", yang_name := pys "ka", type := pys "string",
    type_info := { type := pys "string" } }

/-- Second key for the inner list of the C10 counterexample. -/
def c10CexKeyB : ListKey :=
  { name := pys "kb", yang_name := pys "kb", type := pys "string",
    type_info := { type := pys "string" } }

/-- Nested lists: `/a/b` outer, `/a/b/c/d` inner. -/
def c10CexLists : List (PyStr × ListMeta) :=
  [(pys "/a/b", { list_path := pys "/a/b", keys := [c10CexKeyA] }),
   (pys "/a/b/c/d", { list_path := pys "/a/b/c/d", keys := [c10CexKeyB] })]

/-- One ordinary leaf directly under the inner list. -/
def c10CexPaths : List (PyStr × PathMeta) :=
  [(pys "/a/b/c/d/x", { config := some true, readonly := some false })]

open ContainerGrouper in
/-- C10 counterexample: the claim says the group whose container path
equals a registered list's own path gets `list_info = {is_list: false}`;
with nested lists the group at the inner list's own path `/a/b/c/d` is
marked `is_list = true` (the outer list `/a/b` is a strict prefix and
contributes its keys). -/
theorem c10_counterexample_nested_list_self_path :
    (buildContainers c10CexLists c10CexPaths).map
        (fun e => (e.1, e.2.list_info.isListFlag)) =
      [(pys "/a/b/c/d", true)] := by decide

/-- The list of the C10 witness. -/
def c10WitKey : ListKey :=
  { name := pys "k", yang_name := pys "k", type := pys "string",
    type_info := { type := pys "string" } }

/-- The registry of the C10 witness: a single list at `/x/y`. -/
def c10WitL : List (PyStr × ListMeta) :=
  [(pys "/x/y", { list_path := pys "/x/y", keys := [c10WitKey] })]

/-- Metadata of the list's key leaf. -/
def c10WitKeyMeta : PathMeta :=
  { config := some true, readonly := some false, type := some (pys "string"),
    is_list_key := some true, list_path := some (pys "/x/y") }

/-- Metadata of an ordinary leaf elsewhere in the module. -/
def c10WitOrdMeta : PathMeta :=
  { config := some true, readonly := some false, type := some (pys "string") }

/-- The schema of the C10 witness: the list's only direct leaf child is its
key, plus one ordinary leaf under another container. -/
def c10WitSchema : List (PyStr × List (PyStr × PathMeta)) :=
  [(pys "m", [(pys "/x/y/k", c10WitKeyMeta), (pys "/x/other/leaf", c10WitOrdMeta)])]

/-- The registry keyed by module for the C10 witness. -/
def c10WitReg : List (PyStr × List (PyStr × ListMeta)) := [(pys "m", c10WitL)]

/-- The surviving module groups of the C10 witness. -/
def c10WitCs : List (PyStr × ContainerGrouper.ContainerData) :=
  [(pys "/x/other",
    { paths := [(pys "/x/other/leaf", c10WitOrdMeta)], param_count := 1,
      is_writable := true, container_type := pys "config",
      supported_operations := [pys "get", pys "update", pys "replace", pys "delete"],
      list_info := .notList })]

open ContainerGrouper in
/-- C10 witness: at the concrete single-list module, the group at the
list's own path `/x/y` gets `{is_list: false}` and is absent from the
generated grouping. -/
theorem c10_list_self_group_witness :
    getListInfo c10WitL (pys "/x/y") = ContainerGrouper.ListInfo.notList ∧
    ¬ (pys "/x/y") ∈ c10WitCs.map Prod.fst := by
  have h := c10_list_self_group c10WitL (pys "/x/y") c10WitSchema c10WitReg (pys "m") 1
    (by decide) (by decide) (by decide)
    (by
      intro paths hp pm hpm hcp
      have hpe : paths = [(pys "/x/y/k", c10WitKeyMeta), (pys "/x/other/leaf", c10WitOrdMeta)] := by
        have hped := List.mem_singleton.mp hp
        rw [Prod.mk.injEq] at hped
        exact hped.2
      subst hpe
      rcases List.mem_cons.mp hpm with rfl | hpm2
      · decide
      · rw [List.mem_singleton.mp hpm2] at hcp
        exact absurd hcp (by decide))
  exact ⟨h.2.1, h.2.2 c10WitCs (by decide)⟩

namespace ActionGenerator

/-- The last path segment of an owning list path, as
`list_path.rstrip("/").split("/")[-1]` computes it (`split` never returns
an empty list, so the indexing is total). -/
def lastSegment (list_path : PyStr) : PyStr :=
  (pySplit1 '/' (pyRstripSlashes list_path)).getLastD []

/-- `ActionGenerator._rename_duplicate_list_keys`: with at most one key or
no duplicated name (`len(set(names)) == len(names)`, i.e. every name counts
once), return the keys unchanged; otherwise rename every key whose name is
repeated and whose owning list path is non-empty to
`<list container>_<name>`, recording the original name. -/
def renameDuplicateListKeys (list_keys : List ListKey) (_container_path : PyStr) :
    List ListKey :=
  if list_keys.length ≤ 1 then list_keys
  else
    let key_names := list_keys.map (fun k => k.name)
    if key_names.all (fun n => key_names.count n == 1) then list_keys
    else
      list_keys.map (fun key =>
        if 1 < key_names.count key.name then
          let lp := key.list_path.getD []
          if lp ≠ [] then
            let clean := pyReplace1 '-' (pys "_") (lastSegment lp)
            { key with name := clean ++ pys "_" ++ key.name,
                       original_name := some key.name }
          else key
        else key)

/-- The renamed-key name the claim describes: the owning list's last path
segment, hyphens to underscores, an underscore, then the original name. -/
def claimedRenamedName (k : ListKey) : PyStr :=
  pyReplace1 '-' (pys "_") (lastSegment (k.list_path.getD [])) ++ pys "_" ++ k.name

/-- `[^a-zA-Z0-9_]` as a character class. -/
def isWordChar (c : Char) : Bool :=
  (97 ≤ c.toNat && c.toNat ≤ 122) || (65 ≤ c.toNat && c.toNat ≤ 90) ||
    (48 ≤ c.toNat && c.toNat ≤ 57) || c.toNat == 95

/-- One character of `re.sub(r"[^a-zA-Z0-9_]", "_", s)`. -/
def resubChar (c : Char) : Char := if isWordChar c then c else '_'

/-- `re.sub(r"[^a-zA-Z0-9_]", "_", s)`. -/
def reSubNonWord (s : PyStr) : PyStr := s.map resubChar

/-- `re.sub(r"_+", "_", s)`: collapse runs of underscores. -/
def collapseU : PyStr → PyStr
  | [] => []
  | [c] => [c]
  | c :: c2 :: rest =>
    if c == '_' && c2 == '_' then collapseU (c2 :: rest)
    else c :: collapseU (c2 :: rest)

/-- `clean_device = device_name.replace(".", "_").replace("-", "_")`. -/
def cleanDevice (device : PyStr) : PyStr :=
  pyReplace1 '-' (pys "_") (pyReplace1 '.' (pys "_") device)

/-- `clean_module = module_name.split("@")[0].replace("-", "_")`. -/
def cleanModuleOf (module : PyStr) : PyStr :=
  pyReplace1 '-' (pys "_") ((pySplit1 '@' module).headD [])

/-- `container_parts = container_path.strip("/").split("/")`. -/
def containerPartsOf (container_path : PyStr) : List PyStr :=
  pySplit1 '/' (pyStripSlashes container_path)

/-- `clean_container = "_".join(container_parts)`. -/
def cleanContainerOf (container_path : PyStr) : PyStr :=
  pyJoin (pys "_") (containerPartsOf container_path)

/-- `action_name = f"device_{clean_device}_{clean_module}_{clean_container}"`
after the two `re.sub` cleanups: the composed identifier whose length the
200-character budget tests, and the exact string the overflow hash
digests. -/
def composedActionName (device module container_path : PyStr) : PyStr :=
  collapseU (reSubNonWord
    (pys "device_" ++ cleanDevice device ++ pys "_" ++ cleanModuleOf module
      ++ pys "_" ++ cleanContainerOf container_path))

/-- `hash_part = hashlib.md5(action_name.encode()).hexdigest()[:12]`: the
12-hex-character digest of the pre-truncation identifier. -/
def hashPartOf (device module container_path : PyStr) : PyStr :=
  (MD5.md5Hex (composedActionName device module container_path)).take 12

/-- `device_prefix = f"device_{clean_device}"`. -/
def devicePrefixOf (device : PyStr) : PyStr := pys "device_" ++ cleanDevice device

/-- `module_short = clean_module.split("_")[0]`. -/
def moduleShortOf (module : PyStr) : PyStr :=
  (pySplit1 '_' (cleanModuleOf module)).headD []

/-- `container_suffix`: the last two container parts when there are at
least two, the whole cleaned container otherwise. -/
def containerSuffixOf (container_path : PyStr) : PyStr :=
  if 2 ≤ (containerPartsOf container_path).length then
    pyJoin (pys "_")
      ((containerPartsOf container_path).drop ((containerPartsOf container_path).length - 2))
  else cleanContainerOf container_path

/-- The shortened `device_X_module_hash_container_end` name with its own
`re.sub` cleanups. -/
def shortNameOf (device module container_path : PyStr) : PyStr :=
  collapseU (reSubNonWord
    (devicePrefixOf device ++ pys "_" ++ moduleShortOf module ++ pys "_"
      ++ hashPartOf device module container_path ++ pys "_"
      ++ containerSuffixOf container_path))

/-- `ActionGenerator._build_action_name`: the composed identifier when it
fits the 200-character budget; otherwise the shortened hashed form,
collapsed to `device_<device>_<hash>` when still over budget; the result
lowercased. -/
def buildActionName (device module container_path : PyStr) : PyStr :=
  if 200 < (composedActionName device module container_path).length then
    if 200 < (shortNameOf device module container_path).length then
      pyLower (devicePrefixOf device ++ pys "_" ++ hashPartOf device module container_path)
    else pyLower (shortNameOf device module container_path)
  else pyLower (composedActionName device module container_path)

/-- The lowercase hex digits `hexdigest` produces. -/
def isLowerHexDigit (c : Char) : Bool :=
  (48 ≤ c.toNat && c.toNat ≤ 57) || (97 ≤ c.toNat && c.toNat ≤ 102)

/-- `needle` occurs as a contiguous segment of the string. -/
def hasSegment (needle : PyStr) : PyStr → Bool
  | [] => needle.isEmpty
  | c :: rest => needle.isPrefixOf (c :: rest) || hasSegment needle rest

end ActionGenerator

open ActionGenerator in
/-- C7: when the merged key list carries list paths (as the grouper always
attaches them), every key whose name is repeated is renamed to the owning
list's last path segment (hyphens to underscores), an underscore, and the
original key name, while names that occur only once are left unchanged. -/
theorem c7_duplicate_key_rename (keys : List ListKey) (cp : PyStr)
    (h : ∀ k ∈ keys, k.list_path.getD [] ≠ []) :
    (renameDuplicateListKeys keys cp).map (fun k => k.name) =
      keys.map (fun k =>
        if 1 < (keys.map (fun k => k.name)).count k.name then claimedRenamedName k
        else k.name) := by
  unfold renameDuplicateListKeys
  split
  · next hlen =>
    refine (List.map_congr_left ?_).symm
    intro k hk
    have hcount : (keys.map (fun k => k.name)).count k.name ≤ 1 := by
      calc (keys.map (fun k => k.name)).count k.name
        ≤ (keys.map (fun k => k.name)).length := List.count_le_length _ _
        _ = keys.length := List.length_map _ _
        _ ≤ 1 := hlen
    rw [if_neg (by omega)]
  · dsimp only
    split
    · next hall =>
      refine (List.map_congr_left ?_).symm
      intro k hk
      have hone := List.all_eq_true.mp hall k.name
        (List.mem_map.mpr ⟨k, hk, rfl⟩)
      have hcount : (keys.map (fun k => k.name)).count k.name = 1 := beq_iff_eq.mp hone
      rw [if_neg (by omega)]
    · rw [List.map_map]
      apply List.map_congr_left
      intro k hk
      simp only [Function.comp]
      by_cases hc : 1 < (keys.map (fun k => k.name)).count k.name
      · rw [if_pos hc, if_pos (h k hk), if_pos hc]
        rfl
      · rw [if_neg hc, if_neg hc]

/-- The two `name`-keyed nested list keys of the C7 witness. -/
def c7K1 : ListKey :=
  { name := pys "name", yang_name := pys "name", type := pys "string",
    type_info := { type := pys "string" }, list_path := some (pys "/evpn/instance") }

/-- The inner list's key of the C7 witness. -/
def c7K2 : ListKey :=
  { name := pys "name", yang_name := pys "name", type := pys "string",
    type_info := { type := pys "string" },
    list_path := some (pys "/evpn/instance/pseudowires/pseudowire") }

/-- The merged key list of the C7 witness. -/
def c7Keys : List ListKey := [c7K1, c7K2]

open ActionGenerator in
/-- C7 witness: two nested lists both keyed `name` yield `instance_name`
and `pseudowire_name`, never two keys named `name`. -/
theorem c7_duplicate_key_rename_witness :
    (renameDuplicateListKeys c7Keys
        (pys "/evpn/instance/pseudowires/pseudowire/config")).map (fun k => k.name) =
      [pys "instance_name", pys "pseudowire_name"] := by
  have h := c7_duplicate_key_rename c7Keys
    (pys "/evpn/instance/pseudowires/pseudowire/config") (by decide)
  rw [h]
  decide

namespace ActionGenerator

theorem flatMap_byteToHex_length (l : List Nat) :
    (l.flatMap MD5.byteToHexChars).length = 2 * l.length := by
  induction l with
  | nil => rfl
  | cons b bs ih =>
    rw [List.flatMap_cons, List.length_append, ih]
    show 2 + 2 * bs.length = 2 * (bs.length + 1)
    omega

theorem md5Bytes_length (msg : List Nat) : (MD5.md5Bytes msg).length = 16 := by
  unfold MD5.md5Bytes
  simp [MD5.toLEBytes4]

/-- `hexdigest` is 32 characters. -/
theorem md5Hex_length (s : PyStr) : (MD5.md5Hex s).length = 32 := by
  unfold MD5.md5Hex
  rw [flatMap_byteToHex_length, md5Bytes_length]

theorem toHexDigit_hex (n : Nat) (h : n < 16) :
    isLowerHexDigit (MD5.toHexDigit n) = true := by
  interval_cases n <;> decide

/-- Every character of `hexdigest` is a lowercase hex digit. -/
theorem mem_md5Hex_hex (s : PyStr) : ∀ c ∈ MD5.md5Hex s, isLowerHexDigit c = true := by
  intro c hc
  unfold MD5.md5Hex at hc
  rcases List.mem_flatMap.mp hc with ⟨b, _, hcb⟩
  unfold MD5.byteToHexChars at hcb
  rcases List.mem_cons.mp hcb with rfl | hcb2
  · exact toHexDigit_hex _ (Nat.mod_lt _ (by omega))
  · rw [List.mem_singleton.mp hcb2]
    exact toHexDigit_hex _ (Nat.mod_lt _ (by omega))

theorem hex_isWordChar (c : Char) (h : isLowerHexDigit c = true) : isWordChar c = true := by
  unfold isLowerHexDigit at h
  unfold isWordChar
  simp only [Bool.or_eq_true, Bool.and_eq_true, decide_eq_true_eq, beq_iff_eq] at h ⊢
  omega

theorem hex_resubChar (c : Char) (h : isLowerHexDigit c = true) : resubChar c = c := by
  unfold resubChar
  rw [if_pos (hex_isWordChar c h)]

theorem hex_toLower (c : Char) (h : isLowerHexDigit c = true) : pyToLower c = c := by
  unfold pyToLower
  rw [if_neg]
  unfold isLowerHexDigit at h
  simp only [Bool.or_eq_true, Bool.and_eq_true, decide_eq_true_eq] at h
  intro hc
  omega

theorem hex_ne_underscore (c : Char) (h : isLowerHexDigit c = true) : c ≠ '_' := by
  intro hEq
  rw [hEq] at h
  exact absurd h (by decide)

theorem map_fixed_eq (f : Char → Char) (m : PyStr) (hf : ∀ c ∈ m, f c = c) :
    m.map f = m := by
  induction m with
  | nil => rfl
  | cons c m ih =>
    rw [List.map_cons, hf c (List.mem_cons_self c m),
      ih (fun x hx => hf x (List.mem_cons_of_mem c hx))]

theorem isPrefixOf_append_self (m l2 : PyStr) : m.isPrefixOf (m ++ l2) = true := by
  rw [List.isPrefixOf_iff_prefix]
  exact List.prefix_append m l2

theorem hasSegment_nil_needle (l : PyStr) : hasSegment [] l = true := by
  cases l with
  | nil => rfl
  | cons c rest =>
    unfold hasSegment
    simp [List.isPrefixOf]

theorem hasSegment_append_self (m l1 l2 : PyStr) :
    hasSegment m (l1 ++ (m ++ l2)) = true := by
  induction l1 with
  | nil =>
    rw [List.nil_append]
    cases hm : m ++ l2 with
    | nil =>
      have h0 : m = [] := (List.append_eq_nil.mp hm).1
      rw [h0]
      rfl
    | cons c rest =>
      unfold hasSegment
      rw [← hm, isPrefixOf_append_self]
      rfl
  | cons a l1 ih =>
    rw [List.cons_append]
    unfold hasSegment
    rw [ih]
    simp

theorem collapseU_append_clean (m l2 : PyStr) (h : ∀ c ∈ m, c ≠ '_') :
    collapseU (m ++ l2) = m ++ collapseU l2 := by
  induction m with
  | nil => rfl
  | cons a m ih =>
    have ha : a ≠ '_' := h a (List.mem_cons_self a m)
    rw [List.cons_append]
    cases hm : m ++ l2 with
    | nil =>
      obtain ⟨hm1, hm2⟩ := List.append_eq_nil.mp hm
      subst hm1
      subst hm2
      rfl
    | cons b rest =>
      have hstep : collapseU (a :: b :: rest) = a :: collapseU (b :: rest) := by
        simp only [collapseU]
        rw [if_neg (by simp [ha])]
      rw [hstep, ← hm, ih (fun c hc => h c (List.mem_cons_of_mem a hc))]
      rfl

theorem hasSegment_collapseU (m l1 l2 : PyStr) (h : ∀ c ∈ m, c ≠ '_') :
    hasSegment m (collapseU (l1 ++ (m ++ l2))) = true := by
  induction l1 with
  | nil =>
    rw [List.nil_append, collapseU_append_clean m l2 h]
    simpa using hasSegment_append_self m [] (collapseU l2)
  | cons a l1 ih =>
    rw [List.cons_append]
    cases ht : l1 ++ (m ++ l2) with
    | nil =>
      have hm : m = [] := by
        rcases List.append_eq_nil.mp ht with ⟨-, h2⟩
        exact (List.append_eq_nil.mp h2).1
      rw [hm]
      exact hasSegment_nil_needle _
    | cons b rest =>
      show hasSegment m (collapseU (a :: b :: rest)) = true
      unfold collapseU
      by_cases hab : (a == '_' && b == '_') = true
      · rw [if_pos hab, ← ht]
        exact ih
      · rw [if_neg hab]
        unfold hasSegment
        rw [← ht, ih]
        simp

theorem isPrefixOf_map_fixed (f : Char → Char) (m : PyStr)
    (hf : ∀ c ∈ m, f c = c) :
    ∀ l : PyStr, m.isPrefixOf l = true → m.isPrefixOf (l.map f) = true := by
  intro l h
  rw [List.isPrefixOf_iff_prefix] at h ⊢
  rcases h with ⟨t, rfl⟩
  rw [List.map_append, map_fixed_eq f m hf]
  exact List.prefix_append m (t.map f)

theorem hasSegment_map_fixed (f : Char → Char) (m : PyStr)
    (hf : ∀ c ∈ m, f c = c) :
    ∀ l : PyStr, hasSegment m l = true → hasSegment m (l.map f) = true := by
  intro l
  induction l with
  | nil =>
    intro h
    exact h
  | cons b rest ih =>
    intro h
    rw [List.map_cons]
    unfold hasSegment at h ⊢
    simp only [Bool.or_eq_true] at h
    rcases h with h1 | h2
    · have hp := isPrefixOf_map_fixed f m hf (b :: rest) h1
      rw [List.map_cons] at hp
      rw [hp]
      rfl
    · rw [ih h2]
      simp

theorem reSubNonWord_append (a b : PyStr) :
    reSubNonWord (a ++ b) = reSubNonWord a ++ reSubNonWord b :=
  List.map_append resubChar a b

theorem pyLower_append (a b : PyStr) : pyLower (a ++ b) = pyLower a ++ pyLower b :=
  List.map_append pyToLower a b

theorem pyLower_fixed (m : PyStr) (h : ∀ c ∈ m, pyToLower c = c) : pyLower m = m := by
  unfold pyLower
  induction m with
  | nil => rfl
  | cons c m ih =>
    rw [List.map_cons, h c (List.mem_cons_self c m),
      ih (fun x hx => h x (List.mem_cons_of_mem c hx))]

theorem reSubNonWord_fixed (m : PyStr) (h : ∀ c ∈ m, isLowerHexDigit c = true) :
    reSubNonWord m = m := by
  unfold reSubNonWord
  induction m with
  | nil => rfl
  | cons c m ih =>
    rw [List.map_cons, hex_resubChar c (h c (List.mem_cons_self c m)),
      ih (fun x hx => h x (List.mem_cons_of_mem c hx))]

theorem pyLower_fixed_hex (m : PyStr) (h : ∀ c ∈ m, isLowerHexDigit c = true) :
    ∀ c ∈ m, pyToLower c = c :=
  fun c hc => hex_toLower c (h c hc)

end ActionGenerator

open ActionGenerator in
/-- C9: identifier construction is deterministic and collision-guarded.
Whenever the composed cleaned identifier exceeds the 200-character budget,
the generated action name contains the 12-lowercase-hex-character md5
digest prefix of the pre-truncation identifier as a contiguous segment
(in both the shortened and the final-fallback form), and rebuilding the
name from equal inputs yields the identical name — in the pure embedding
the construction is a function of its inputs, so determinism is by
construction, and the digest is a deterministic function of the
pre-truncation identifier alone. -/
theorem c9_identifier_overflow (device module container_path : PyStr)
    (h : 200 < (composedActionName device module container_path).length) :
    (hashPartOf device module container_path).length = 12 ∧
    (∀ ch ∈ hashPartOf device module container_path, isLowerHexDigit ch = true) ∧
    hasSegment (hashPartOf device module container_path)
      (buildActionName device module container_path) = true ∧
    (∀ d2 m2 c2, d2 = device → m2 = module → c2 = container_path →
      buildActionName d2 m2 c2 = buildActionName device module container_path) := by
  have hhex : ∀ ch ∈ hashPartOf device module container_path,
      isLowerHexDigit ch = true := by
    intro ch hch
    exact mem_md5Hex_hex _ ch
      (List.take_subset 12 (MD5.md5Hex (composedActionName device module container_path)) hch)
  have hnu : ∀ ch ∈ hashPartOf device module container_path, ch ≠ '_' :=
    fun ch hch => hex_ne_underscore ch (hhex ch hch)
  refine ⟨?_, hhex, ?_, ?_⟩
  · unfold hashPartOf
    rw [List.length_take, md5Hex_length]
    omega
  · have hlowfix : ∀ ch ∈ hashPartOf device module container_path, pyToLower ch = ch :=
      fun ch hch => hex_toLower ch (hhex ch hch)
    unfold buildActionName
    rw [if_pos h]
    split
    · -- final fallback: `device_prefix ++ "_" ++ hash`, lowercased
      rw [pyLower_append,
        pyLower_fixed (hashPartOf device module container_path) hlowfix]
      have hseg := hasSegment_append_self (hashPartOf device module container_path)
        (pyLower (devicePrefixOf device ++ pys "_")) []
      rw [List.append_nil] at hseg
      exact hseg
    · -- shortened name: the hash survives the re-clean and the lowering
      have hseg : hasSegment (hashPartOf device module container_path)
          (shortNameOf device module container_path) = true := by
        unfold shortNameOf
        rw [show devicePrefixOf device ++ pys "_" ++ moduleShortOf module ++ pys "_"
              ++ hashPartOf device module container_path ++ pys "_"
              ++ containerSuffixOf container_path
            = (devicePrefixOf device ++ pys "_" ++ moduleShortOf module ++ pys "_")
              ++ (hashPartOf device module container_path
                ++ (pys "_" ++ containerSuffixOf container_path)) from by
          simp [List.append_assoc]]
        rw [reSubNonWord_append,
          reSubNonWord_append (hashPartOf device module container_path)
            (pys "_" ++ containerSuffixOf container_path),
          reSubNonWord_fixed (hashPartOf device module container_path) hhex]
        exact hasSegment_collapseU (hashPartOf device module container_path) _ _ hnu
      exact hasSegment_map_fixed pyToLower (hashPartOf device module container_path)
        hlowfix (shortNameOf device module container_path) hseg
  · intro d2 m2 c2 h1 h2 h3
    rw [h1, h2, h3]

/-- The C9 witness device. -/
def c9Dev : PyStr := pys "10.0.0.1"

/-- The C9 witness module (with a version suffix to strip). -/
def c9Mod : PyStr := pys "openconfig-interfaces@2021-01-01"

/-- A deeply nested container path whose composed identifier exceeds the
200-character budget. -/
def c9Cont : PyStr :=
  pys ("/abcdefghij/abcdefghij/abcdefghij/abcdefghij/abcdefghij/abcdefghij"
    ++ "/abcdefghij/abcdefghij/abcdefghij/abcdefghij/abcdefghij/abcdefghij"
    ++ "/abcdefghij/abcdefghij/abcdefghij/abcdefghij/abcdefghij/abcdefghij"
    ++ "/abcdefghij/abcdefghij")

set_option maxRecDepth 40000 in
open ActionGenerator in
/-- C9 witness: at a concrete over-budget input, the 12-character hash is a
hex string and occurs inside the generated name. -/
theorem c9_identifier_overflow_witness :
    (hashPartOf c9Dev c9Mod c9Cont).length = 12 ∧
    hasSegment (hashPartOf c9Dev c9Mod c9Cont) (buildActionName c9Dev c9Mod c9Cont)
      = true := by
  have h := c9_identifier_overflow c9Dev c9Mod c9Cont (by decide)
  exact ⟨h.1, h.2.2.1⟩

namespace ParseYangModels

/-- What one module's `parse_module` call comes back with: the walker's
paths and list registry, or an exception (caught and logged as a warning,
the module skipped). -/
inductive ExtractOutcome where
  | ok (paths : List (PyStr × PathMeta)) (lists : List (PyStr × ListMeta))
  | failed
deriving DecidableEq

/-- How `YangParser.load_modules` came out: `FileNotFoundError` (its own
`except` arm with a hint), any other exception (the generic arm, e.g. the
`ValueError` for a directory without `.yang` files), or the loaded modules
with each one's extraction outcome. -/
inductive LoadOutcome where
  | fileNotFound (msg : PyStr)
  | loadError (msg : PyStr)
  | loaded (modules : List (PyStr × ExtractOutcome))
deriving DecidableEq

/-- One value of the `path_catalog` dict: `{"paths": ..., "path_count": N}`. -/
structure ModuleCatalogEntry where
  paths : List (PyStr × PathMeta)
  path_count : Nat
deriving DecidableEq

/-- The action's result dict, reduced to the fields the claims concern:
the success payload carries `modules_parsed`, `total_paths` and
`stored_in_datastore`; the failure payload carries the error (and the
`FileNotFoundError` hint). Timing, logging and sample output are
elided. -/
inductive ParseResult where
  | ok (modules_parsed : Nat) (total_paths : Nat) (stored_in_datastore : Bool)
  | err (error : PyStr) (hint : Option PyStr)
deriving DecidableEq

/-- One completed future of `_parse_modules_concurrent`: a module with a
non-empty path dict joins the catalog, its list registry joins the
aggregate when non-empty, and a module whose extraction raised is skipped
with a warning. -/
def stepParse
    (acc : List (PyStr × ModuleCatalogEntry) × List (PyStr × List (PyStr × ListMeta)))
    (e : PyStr × ExtractOutcome) :
    List (PyStr × ModuleCatalogEntry) × List (PyStr × List (PyStr × ListMeta)) :=
  match e.2 with
  | .failed => acc
  | .ok paths lists =>
    if paths.isEmpty then acc
    else
      (acc.1 ++ [(e.1, { paths := paths, path_count := paths.length })],
       if lists.isEmpty then acc.2 else acc.2 ++ [(e.1, lists)])

/-- `_parse_modules_concurrent`: fold the completions (the catalog is
keyed by module name, so its contents do not depend on completion order;
one completion order is modelled). -/
def parseModulesConcurrent (modules : List (PyStr × ExtractOutcome)) :
    List (PyStr × ModuleCatalogEntry) × List (PyStr × List (PyStr × ListMeta)) :=
  modules.foldl stepParse ([], [])

/-- `YangParseModelsAction.run`, reduced to its result flow: loader
exceptions map to the two `except` arms' failure results; otherwise the
run always returns `(True, success payload)` built from the aggregated
catalog — there is no emptiness check on the catalog. -/
def run (load : LoadOutcome) (store_in_datastore : Bool) : Bool × ParseResult :=
  match load with
  | .fileNotFound msg =>
    (false, .err msg (some (pys "Run yang_download_models first to download YANG files")))
  | .loadError msg => (false, .err msg none)
  | .loaded modules =>
    let catalog := (parseModulesConcurrent modules).1
    let total_paths := (catalog.map (fun e => e.2.path_count)).sum
    (true, .ok catalog.length total_paths store_in_datastore)

end ParseYangModels

open ParseYangModels in
/-- C2 counterexample: a run whose single module loads but yields zero
paths — the aggregated catalog is empty — returns `(True, success)` with
`modules_parsed = 0` and `total_paths = 0`, not an unsuccessful result as
the claim requires. -/
theorem c2_counterexample_empty_catalog_success :
    run (.loaded [(pys "m", .ok [] [])]) true = (true, .ok 0 0 true) := by decide

open ParseYangModels in
/-- C2 (amended): when loading succeeds, the run returns a successful
result unconditionally — if zero modules yield any paths it still returns
`(True, success)` with `modules_parsed = 0` and `total_paths = 0`; an
unsuccessful result is produced only when loading raises (missing YANG
path or another load-time exception). -/
theorem c2_zero_paths_still_success (modules : List (PyStr × ExtractOutcome))
    (store : Bool)
    (h : ∀ e ∈ modules, ∀ paths lists, e.2 = ExtractOutcome.ok paths lists → paths = []) :
    run (.loaded modules) store = (true, .ok 0 0 store) ∧
    (∀ msg, (run (.fileNotFound msg) store).1 = false) ∧
    (∀ msg, (run (.loadError msg) store).1 = false) := by
  have hstep : ∀ acc (e : PyStr × ExtractOutcome),
      (∀ paths lists, e.2 = ExtractOutcome.ok paths lists → paths = []) →
      stepParse acc e = acc := by
    intro acc e he
    unfold stepParse
    cases hc : e.2 with
    | failed => rfl
    | ok paths lists =>
      rw [he paths lists hc]
      rfl
  have hcat : ∀ (ms : List (PyStr × ExtractOutcome)),
      (∀ e ∈ ms, ∀ paths lists, e.2 = ExtractOutcome.ok paths lists → paths = []) →
      ∀ acc : List (PyStr × ModuleCatalogEntry) × List (PyStr × List (PyStr × ListMeta)),
      ms.foldl stepParse acc = acc := by
    intro ms
    induction ms with
    | nil =>
      intro _ acc
      rfl
    | cons e ms ih =>
      intro hall acc
      rw [List.foldl_cons, hstep acc e (hall e (List.mem_cons_self e ms)),
        ih (fun x hx => hall x (List.mem_cons_of_mem e hx)) acc]
  refine ⟨?_, fun msg => rfl, fun msg => rfl⟩
  unfold run parseModulesConcurrent
  dsimp only
  rw [hcat modules h ([], [])]
  rfl

open ParseYangModels in
/-- C2 witness: the amended behavior at a concrete one-module run with no
paths. -/
theorem c2_zero_paths_still_success_witness :
    run (.loaded [(pys "m", .ok [] [])]) false = (true, .ok 0 0 false) ∧
    (run (.fileNotFound (pys "YANG path not found")) false).1 = false := by
  have h := c2_zero_paths_still_success [(pys "m", .ok [] [])] false
    (by
      intro e he paths lists hok
      rw [List.mem_singleton.mp he] at hok
      exact (ExtractOutcome.ok.injEq .. ▸ hok).1.symm)
  exact ⟨h.1, h.2.1 (pys "YANG path not found")⟩

end GnmiToolkit
